import Mathlib

/-
Verification of the notes synchronization core of voxprep (Dev/voxnotes.py).

Python strings are modelled as `List Char`; the ASCII whitespace characters
recognised by Python's `str.strip` and the regex class `\s` are modelled by
`isPySpace`.  A Word document is modelled as the sequence of its paragraph
texts.  The COM presentation backend used by `apply_notes` is modelled by the
`Pres` structure: `getSlide` covers the `Slides.Item`/`NotesPage` accesses
(raising is the `Except.error` case), shapes carry the data the loop inspects,
and `saveError` models a failing `Presentation.Save`.
-/

namespace Vox

abbrev Str := List Char

/-- Whitespace characters of Python's `str.strip` and regex `\s` (ASCII part). -/
def isPySpace (c : Char) : Bool :=
  c == ' ' || c == '\t' || c == '\n' || c == '\r' || c == '\x0b' || c == '\x0c'

/-- Python `s.lstrip()`. -/
def pyLstrip (s : Str) : Str := s.dropWhile isPySpace

/-- Python `s.rstrip()`. -/
def pyRstrip (s : Str) : Str := (s.reverse.dropWhile isPySpace).reverse

/-- Python `s.strip()`. -/
def pyStrip (s : Str) : Str := pyRstrip (pyLstrip s)

/-- Python `content.split(chr(10))`. -/
def splitNL : Str → List Str
  | [] => [[]]
  | c :: rest =>
    if c = '\n' then [] :: splitNL rest
    else
      match splitNL rest with
      | [] => [[c]]
      | l :: ls => (c :: l) :: ls

/-- Python `(chr(10)).join(lines)`. -/
def joinNL : List Str → Str
  | [] => []
  | [l] => l
  | l :: ls => l ++ '\n' :: joinNL ls

/-- Decimal digit character, as produced by Python `str(n)`. -/
def digitChar (k : Nat) : Char :=
  if k = 0 then '0' else if k = 1 then '1' else if k = 2 then '2'
  else if k = 3 then '3' else if k = 4 then '4' else if k = 5 then '5'
  else if k = 6 then '6' else if k = 7 then '7' else if k = 8 then '8' else '9'

/-- Fuel-driven decimal digit expansion (most significant digit first). -/
def digitsAux : Nat → Nat → Str
  | 0, _ => []
  | f + 1, n => if n = 0 then [] else digitsAux f (n / 10) ++ [digitChar (n % 10)]

/-- Python `str(n)` for a natural number. -/
def strOfNat (n : Nat) : Str := if n = 0 then ['0'] else digitsAux (n + 1) n

/-- ASCII decimal digit test, modelling the regex class `\d`. -/
def isDigitCh (c : Char) : Bool := '0' ≤ c && c ≤ '9'

def digitVal (c : Char) : Nat := c.toNat - 48

/-- Python `int(s)` on a non-empty digit string. -/
def parseNat (s : Str) : Nat := s.foldl (fun a c => 10 * a + digitVal c) 0

/-- Case-insensitive string equality (ASCII), modelling `re.IGNORECASE`. -/
def ciEq (a b : Str) : Bool := a.map Char.toLower == b.map Char.toLower

/-- Tail of the slide-header regex after the literal `Slide`:
the part `\s+(\d+)(?::\s*(.*))?$` applied to a single line.
Returns the slide number and the (possibly empty) title, with the
`match.group(2) or ""` collapse of a missing title applied. -/
def matchHeaderAfterSlide (rest : Str) : Option (Nat × Str) :=
  match rest with
  | [] => none
  | c :: r =>
    if isPySpace c then
      let r1 := r.dropWhile isPySpace
      let digits := r1.takeWhile isDigitCh
      if digits = [] then none
      else
        match r1.dropWhile isDigitCh with
        | [] => some (parseNat digits, [])
        | ':' :: r3 => some (parseNat digits, r3.dropWhile isPySpace)
        | _ => none
    else none

/-- The header regex of `_parse_txt` and `_parse_docx`:
`^Slide\s+(\d+)(?::\s*(.*))?$` with `re.IGNORECASE`, on a stripped line. -/
def matchTxtHeader (s : Str) : Option (Nat × Str) :=
  match s with
  | c1 :: c2 :: c3 :: c4 :: c5 :: rest =>
    if ciEq [c1, c2, c3, c4, c5] ("Slide".data) then matchHeaderAfterSlide rest
    else none
  | _ => none

/-- The header regex of `_parse_md`:
`^##\s+Slide\s+(\d+)(?::\s*(.*))?$` with `re.IGNORECASE`, on a stripped line. -/
def matchMdHeader (s : Str) : Option (Nat × Str) :=
  match s with
  | '#' :: '#' :: c :: rest =>
    if isPySpace c then matchTxtHeader (rest.dropWhile isPySpace) else none
  | _ => none

def isSepCh (c : Char) : Bool := c == '─' || c == '═'

/-- The separator regex `^[─═]{10,}$` of the parsers, on a stripped line. -/
def isSepLine (s : Str) : Bool := decide (10 ≤ s.length) && s.all isSepCh

/-- One per-slide notes record, the dict produced by `extract_notes` and the
parsers: keys `slide_number`, `slide_title`, `notes`. -/
structure NotesRecord where
  slide_number : Nat
  slide_title : Str
  notes : Str
  deriving DecidableEq, Repr

inductive ChangeType where
  | added
  | removed
  | modified
  deriving DecidableEq, Repr

/-- One change dict produced by `compare_notes`. -/
structure ChangeRecord where
  slide_number : Nat
  slide_title : Str
  original_notes : Str
  edited_notes : Str
  change_type : ChangeType
  deriving DecidableEq, Repr

/-- The codepoints deleted by `sanitize_text`: `range(32)` minus 9, 10, 13,
plus 127, exactly as the Python builds its `delete_chars` table. -/
def delete_codes : List Nat :=
  ((List.range 32).filter (fun i => !(i == 9 || i == 10 || i == 13))) ++ [127]

def delete_chars : Str := delete_codes.map Char.ofNat

/-- Python `sanitize_text`: `text.translate(str.maketrans(chr(39), chr(39), delete_chars))`,
deleting every character of `delete_chars` and keeping everything else. -/
def sanitize_text (s : Str) : Str := s.filter (fun c => !(delete_chars.contains c))

/-- Header text `Slide {n}` or `Slide {n}: {title}`, shared by the txt and md
serializers (which use the title unsanitized). -/
def headerLineTxt (r : NotesRecord) : Str :=
  if r.slide_title = [] then ("Slide ".data) ++ strOfNat r.slide_number
  else ("Slide ".data) ++ strOfNat r.slide_number ++ (": ".data) ++ r.slide_title

def sepDash : Str := List.replicate 50 '─'

def sepEq : Str := List.replicate 50 '═'

def phTxt : Str := "[No notes]".data

def phMd : Str := "*[No notes]*".data

/-- The seven lines appended by `export_to_txt` for one record. -/
def txtRawBlock (r : NotesRecord) : List Str :=
  [headerLineTxt r, sepDash, [], if r.notes = [] then phTxt else r.notes, [], sepEq, []]

/-- Python `export_to_txt`, as the file content it writes. -/
def export_to_txt (notes : List NotesRecord) : Str :=
  joinNL (notes.flatMap txtRawBlock)

def headerLineMd (r : NotesRecord) : Str := ("## ".data) ++ headerLineTxt r

def mdTitleLine : Str := "# Speaker Notes".data

def hrMd : Str := "---".data

/-- The six lines appended by `export_to_md` for one record. -/
def mdRawBlock (r : NotesRecord) : List Str :=
  [headerLineMd r, [], if r.notes = [] then phMd else r.notes, [], hrMd, []]

/-- Python `export_to_md`, as the file content it writes. -/
def export_to_md (notes : List NotesRecord) : Str :=
  joinNL ([mdTitleLine, []] ++ notes.flatMap mdRawBlock)

/-- Header paragraph of `export_to_docx`; unlike txt/md it sanitizes the title. -/
def headerLineDocx (r : NotesRecord) : Str :=
  if r.slide_title = [] then ("Slide ".data) ++ strOfNat r.slide_number
  else ("Slide ".data) ++ strOfNat r.slide_number ++ (": ".data) ++ sanitize_text r.slide_title

/-- Body paragraphs of `export_to_docx` for non-empty notes: sanitize, split on
newlines, keep only lines with non-blank strip, each added stripped. -/
def docxBodyParas (notes : Str) : List Str :=
  (splitNL (sanitize_text notes)).filterMap
    (fun l => if pyStrip l = [] then none else some (pyStrip l))

/-- The paragraphs `export_to_docx` adds for one record: header, dash
separator, body or placeholder, empty spacer. -/
def docxBlockLines (r : NotesRecord) : List Str :=
  [headerLineDocx r, sepDash] ++
    (if r.notes = [] then [phTxt] else docxBodyParas r.notes) ++ [[]]

/-- Python `export_to_docx`, as the sequence of paragraph texts it writes. -/
def export_to_docx (notes : List NotesRecord) : List Str :=
  notes.flatMap docxBlockLines

/-- Parser state: `notes_data`, `current_slide`, `current_notes`. -/
structure PState where
  acc : List NotesRecord
  cur : Option (Nat × Str)
  buf : List Str
  deriving DecidableEq, Repr

/-- Format parameters distinguishing the three parsers: the skip test and
header regex applied to the stripped line, whether the accumulated body line is
the stripped text (docx) or the rstripped raw line (txt/md), and the exact
placeholder spelling. -/
structure FmtP where
  skip : Str → Bool
  header : Str → Option (Nat × Str)
  useStripped : Bool
  ph : Str

/-- Placeholder collapse applied to the joined, stripped body at flush time. -/
def collapsePh (F : FmtP) (s : Str) : Str := if s = F.ph then [] else s

/-- Flush the currently accumulated slide, if any, as a completed record. -/
def flushCur (F : FmtP) (st : PState) : List NotesRecord :=
  match st.cur with
  | none => []
  | some (n, t) => [⟨n, t, collapsePh F (pyStrip (joinNL st.buf))⟩]

/-- One loop iteration of the shared parsing algorithm of
`_parse_txt` / `_parse_md` / `_parse_docx`. -/
def stepP (F : FmtP) (st : PState) (line : Str) : PState :=
  let text := pyStrip line
  if F.skip text then st
  else
    match F.header text with
    | some (n, t) => ⟨st.acc ++ flushCur F st, some (n, t), []⟩
    | none =>
      match st.cur with
      | none => st
      | some _ =>
        if text = F.ph then st
        else ⟨st.acc, st.cur, st.buf ++ [if F.useStripped then text else pyRstrip line]⟩

/-- Run the parsing loop from a given state and flush the final open slide. -/
def runPF (F : FmtP) (st : PState) (lines : List Str) : List NotesRecord :=
  let fin := lines.foldl (stepP F) st
  fin.acc ++ flushCur F fin

/-- Run a parser over its units and flush the final open slide. -/
def runP (F : FmtP) (lines : List Str) : List NotesRecord :=
  runPF F ⟨[], none, []⟩ lines

def fmtTxt : FmtP := ⟨isSepLine, matchTxtHeader, false, phTxt⟩

def mdSkip (t : Str) : Bool := t.take 2 == ("# ".data) || t == hrMd

def fmtMd : FmtP := ⟨mdSkip, matchMdHeader, false, phMd⟩

def fmtDocx : FmtP := ⟨fun t => t.isEmpty || isSepLine t, matchTxtHeader, true, phTxt⟩

/-- Python `_parse_txt` on file content. -/
def parse_txt (content : Str) : List NotesRecord := runP fmtTxt (splitNL content)

/-- Python `_parse_md` on file content. -/
def parse_md (content : Str) : List NotesRecord := runP fmtMd (splitNL content)

/-- Python `_parse_docx` on the document's paragraph texts. -/
def parse_docx (paras : List Str) : List NotesRecord := runP fmtDocx paras

/-- Insertion into a Python dict keyed by slide number: an existing key keeps
its position and gets the new value, a new key is appended. -/
def dinsert (d : List (Nat × NotesRecord)) (k : Nat) (v : NotesRecord) :
    List (Nat × NotesRecord) :=
  match d with
  | [] => [(k, v)]
  | (k', v') :: rest => if k' = k then (k', v) :: rest else (k', v') :: dinsert rest k v

/-- The dict comprehension `\x7bn["slide_number"]: n for n in l\x7d`. -/
def buildDict (l : List NotesRecord) : List (Nat × NotesRecord) :=
  l.foldl (fun d r => dinsert d r.slide_number r) []

/-- Python `dict.get`. -/
def dlookup (d : List (Nat × NotesRecord)) (k : Nat) : Option NotesRecord :=
  match d with
  | [] => none
  | (k', v) :: rest => if k' = k then some v else dlookup rest k

/-- Change classification of `compare_notes` for a differing trimmed pair. -/
def classifyChange (ot et : Str) : ChangeType :=
  if ot = [] ∧ et ≠ [] then .added
  else if ot ≠ [] ∧ et = [] then .removed
  else .modified

/-- The changes appended by one iteration of the `compare_notes` loop for the
edited entry `p` (key and record). -/
def contribC (origD : List (Nat × NotesRecord)) (p : Nat × NotesRecord) :
    List ChangeRecord :=
  match dlookup origD p.1 with
  | none =>
    if p.2.notes = [] then []
    else [⟨p.1, p.2.slide_title, [], p.2.notes, .added⟩]
  | some o =>
    let ot := pyStrip o.notes
    let et := pyStrip p.2.notes
    if ot = et then [] else [⟨p.1, o.slide_title, ot, et, classifyChange ot et⟩]

/-- Python `compare_notes`: build both lookups, then iterate the edited dict in
insertion order, appending at most one change per entry. -/
def compare_notes (original edited : List NotesRecord) : List ChangeRecord :=
  (buildDict edited).foldl (fun changes p => changes ++ contribC (buildDict original) p) []

/-- A shape on a notes page as inspected by the `apply_notes` loop:
`phType = none` models `PlaceholderFormat.Type` raising, `setFails` models the
text assignment raising. -/
structure Shape where
  phType : Option Nat
  hasTextFrame : Bool
  setFails : Bool

structure ComSlide where
  shapes : List Shape

/-- The presentation backend: `getSlide` models `Slides.Item(n)` plus the
`NotesPage` access (error = the per-change exception), `saveError` models a
failing `Save()`. -/
structure Pres where
  getSlide : Nat → Except Str ComSlide
  saveError : Option Str

/-- The inner shape loop of `apply_notes`: first placeholder of type 2 with a
text frame whose assignment succeeds wins; each failure falls through to the
next shape via the bare `except: continue`. -/
def trySetNotes : List Shape → Bool
  | [] => false
  | sh :: rest =>
    match sh.phType with
    | none => trySetNotes rest
    | some t =>
      if t = 2 then
        if sh.hasTextFrame then
          if sh.setFails then trySetNotes rest else true
        else trySetNotes rest
      else trySetNotes rest

/-- The result dict of `apply_notes`. -/
structure ApplyResult where
  applied : List Nat
  skipped : List Nat
  errors : List Str
  deriving DecidableEq, Repr

/-- Error string `f"Slide \x7bslide_num\x7d: \x7be\x7d"`. -/
def fmtErr (n : Nat) (msg : Str) : Str :=
  ("Slide ".data) ++ strOfNat n ++ (": ".data) ++ msg

/-- One iteration of the per-change loop of `apply_notes`. -/
def applyStep (pres : Pres) (st : ApplyResult) (c : ChangeRecord) : ApplyResult :=
  match pres.getSlide c.slide_number with
  | .error msg => { st with errors := st.errors ++ [fmtErr c.slide_number msg] }
  | .ok slide =>
    if trySetNotes slide.shapes then { st with applied := st.applied ++ [c.slide_number] }
    else st

/-- Python `apply_notes`: optional filtering by `slides_to_apply`, early return
on no changes, per-change loop, then the single batched `Save()` whose failure
is re-raised (modelled as `Except.error`) instead of being recorded. -/
def apply_notes (pres : Pres) (changes : List ChangeRecord)
    (slides_to_apply : Option (List Nat)) : Except Str ApplyResult :=
  let changes' :=
    match slides_to_apply with
    | some allowed => changes.filter (fun (c : ChangeRecord) => allowed.contains c.slide_number)
    | none => changes
  if changes'.isEmpty then .ok ⟨[], [], []⟩
  else
    let st := changes'.foldl (applyStep pres) ⟨[], [], []⟩
    match pres.saveError with
    | some msg => .error (("Failed to apply notes: ".data) ++ msg)
    | none => .ok st

/-- A record with its notes body trimmed: what the amended round trip recovers. -/
def trimRec (r : NotesRecord) : NotesRecord :=
  ⟨r.slide_number, r.slide_title, pyStrip r.notes⟩

/-- Title fit for the shared header grammar: no embedded newline and invariant
under stripping at both ends. -/
def titleOK (t : Str) : Bool :=
  !(t.contains '\n') && pyLstrip t == t && pyRstrip t == t

/-- A body line survives the txt parser untouched: no trailing whitespace, and
its stripped form is not a separator, a header, or the placeholder. -/
def lineOKTxt (l : Str) : Bool :=
  pyRstrip l == l && !(isSepLine (pyStrip l)) && (matchTxtHeader (pyStrip l)).isNone
    && !(pyStrip l == phTxt)

def notesOKTxt (s : Str) : Bool := (splitNL s).all lineOKTxt && !(pyStrip s == phTxt)

def safeTxt (r : NotesRecord) : Bool := titleOK r.slide_title && notesOKTxt r.notes

/-- A body line survives the md parser untouched: no trailing whitespace, and
its stripped form is not skipped, a header, or the md placeholder. -/
def lineOKMd (l : Str) : Bool :=
  pyRstrip l == l && !(mdSkip (pyStrip l)) && (matchMdHeader (pyStrip l)).isNone
    && !(pyStrip l == phMd)

def notesOKMd (s : Str) : Bool := (splitNL s).all lineOKMd && !(pyStrip s == phMd)

def safeMd (r : NotesRecord) : Bool := titleOK r.slide_title && notesOKMd r.notes

/-- A body line survives the docx writer and parser untouched: non-blank,
strip-invariant, and not a separator, header or placeholder paragraph. -/
def lineOKDocx (l : Str) : Bool :=
  !(l.isEmpty) && pyLstrip l == l && pyRstrip l == l && !(isSepLine l)
    && (matchTxtHeader l).isNone && !(l == phTxt)

def notesOKDocx (s : Str) : Bool :=
  sanitize_text s == s && (s.isEmpty || (splitNL s).all lineOKDocx)
    && !(pyStrip s == phTxt)

def safeDocx (r : NotesRecord) : Bool :=
  titleOK r.slide_title && sanitize_text r.slide_title == r.slide_title
    && notesOKDocx r.notes

/-- Keep the last record for each slide number, in first-occurrence order:
the record sequence a Python dict built from `l` holds. -/
def dedupKeepLast (l : List NotesRecord) : List NotesRecord :=
  (buildDict l).map Prod.snd

/-- Spec-side predicate for claim C8 (a refinement statement): a character is
kept when it is not a non-kept control character (C0 minus tab, LF, CR) and not
the delete character. -/
def keptBySpec (c : Char) : Bool :=
  let n : Nat := c.toNat
  !((decide (n < 32) && !(n == 9 || n == 10 || n == 13)) || n == 127)

/-- The newline-split lines of a notes body, empty for an empty body. -/
def bodyLinesOf (notes : Str) : List Str :=
  if notes = [] then [] else splitNL notes

/-- The units the txt parser sees for one exported record, after splitting the
file content on newlines. -/
def txtLines (r : NotesRecord) : List Str :=
  [headerLineTxt r, sepDash, []]
    ++ (if r.notes = [] then [phTxt] else splitNL r.notes) ++ [[], sepEq, []]

/-- The units the md parser sees for one exported record. -/
def mdLines (r : NotesRecord) : List Str :=
  [headerLineMd r, []]
    ++ (if r.notes = [] then [phMd] else splitNL r.notes) ++ [[], hrMd, []]

/-- Accumulated body buffer after the txt or md parser has consumed one
exported block: a blank line, the body lines, and two trailing blanks. -/
def bufShape (notes : Str) : List Str :=
  ([] : Str) :: (bodyLinesOf notes ++ [[], []])

/-- Sample records used to instantiate the proved theorems. -/
def wRecs : List NotesRecord :=
  [⟨1, "Intro".data, "Hello world\nMore text".data⟩, ⟨2, [], []⟩]

def mkChange (n : Nat) : ChangeRecord := ⟨n, [], [], "x".data, .modified⟩

/-- Backend whose slides all expose one working notes placeholder. -/
def presOK : Pres := ⟨fun _ => .ok ⟨[⟨some 2, true, false⟩]⟩, none⟩

/-- Backend whose notes placeholder raises on every text assignment. -/
def presSetFail : Pres := ⟨fun _ => .ok ⟨[⟨some 2, true, true⟩]⟩, none⟩

/-- Backend on which looking slide 1 up raises and whose save fails. -/
def presSaveFail : Pres :=
  ⟨fun n => if n = 1 then .error ("boom".data) else .ok ⟨[⟨some 2, true, false⟩]⟩,
   some ("disk full".data)⟩

/-- Backend on which looking slide 1 up raises; other slides work, save works. -/
def presLookupFail : Pres :=
  ⟨fun n => if n = 1 then .error ("boom".data) else .ok ⟨[⟨some 2, true, false⟩]⟩, none⟩

/-- The slide number the loop appends to `applied` for a change, if any. -/
def appliedOf (pres : Pres) (c : ChangeRecord) : Option Nat :=
  match pres.getSlide c.slide_number with
  | .ok s => if trySetNotes s.shapes then some c.slide_number else none
  | .error _ => none

/-- The error string the loop appends to `errors` for a change, if any. -/
def errorOf (pres : Pres) (c : ChangeRecord) : Option Str :=
  match pres.getSlide c.slide_number with
  | .error m => some (fmtErr c.slide_number m)
  | .ok _ => none

theorem dropWhile_eq_self_of (p : Char → Bool) (l : Str)
    (h : ∀ c ∈ l, p c = false) : l.dropWhile p = l := by
  cases l with
  | nil => rfl
  | cons c t => simp [List.dropWhile_cons, h c (List.mem_cons_self c t)]

theorem dropWhile_append_of_head (p : Char → Bool) (l m : Str)
    (hl : l.dropWhile p = l) (hne : l ≠ []) : (l ++ m).dropWhile p = l ++ m := by
  obtain ⟨c, t, rfl⟩ := List.exists_cons_of_ne_nil hne
  have hc : ¬ p c = true := by
    have := List.dropWhile_eq_self_iff.mp hl (by simp)
    simpa using this
  simp [List.dropWhile_cons, hc]

theorem pyLstrip_cons_space {c : Char} (s : Str) (h : isPySpace c = true) :
    pyLstrip (c :: s) = pyLstrip s := by
  simp [pyLstrip, List.dropWhile_cons, h]

theorem pyLstrip_cons_not {c : Char} (s : Str) (h : isPySpace c = false) :
    pyLstrip (c :: s) = c :: s := by
  simp [pyLstrip, List.dropWhile_cons, h]

theorem pyRstrip_snoc_space {c : Char} (s : Str) (h : isPySpace c = true) :
    pyRstrip (s ++ [c]) = pyRstrip s := by
  simp [pyRstrip, List.reverse_append, List.dropWhile_cons, h]

theorem pyRstrip_snoc_not {c : Char} (s : Str) (h : isPySpace c = false) :
    pyRstrip (s ++ [c]) = s ++ [c] := by
  simp [pyRstrip, List.reverse_append, List.dropWhile_cons, h]

theorem pyStrip_cons_space {c : Char} (s : Str) (h : isPySpace c = true) :
    pyStrip (c :: s) = pyStrip s := by
  simp [pyStrip, pyLstrip_cons_space s h]

theorem pyStrip_snoc_space {c : Char} (s : Str) (h : isPySpace c = true) :
    pyStrip (s ++ [c]) = pyStrip s := by
  unfold pyStrip pyLstrip
  rw [List.dropWhile_append]
  by_cases he : (s.dropWhile isPySpace).isEmpty
  · simp only [he, if_pos]
    have : (s.dropWhile isPySpace) = [] := by simpa [List.isEmpty_iff] using he
    simp [List.dropWhile_cons, h, this, pyRstrip]
  · simp only [he, if_neg, Bool.false_eq_true, not_false_iff]
    exact pyRstrip_snoc_space _ h

theorem pyLstrip_append_of (a b : Str) (h : pyLstrip a = a) (ha : a ≠ []) :
    pyLstrip (a ++ b) = a ++ b :=
  dropWhile_append_of_head isPySpace a b h ha

theorem pyRstrip_reverse_eq (b : Str) (h : pyRstrip b = b) :
    b.reverse.dropWhile isPySpace = b.reverse := by
  have := congrArg List.reverse h
  simpa [pyRstrip] using this

theorem pyRstrip_append_of (a b : Str) (h : pyRstrip b = b) (hb : b ≠ []) :
    pyRstrip (a ++ b) = a ++ b := by
  have hrev : b.reverse ≠ [] := by simpa using hb
  have h2 := dropWhile_append_of_head isPySpace b.reverse a.reverse
    (pyRstrip_reverse_eq b h) hrev
  unfold pyRstrip
  rw [List.reverse_append, h2, List.reverse_append]
  simp

theorem pyRstrip_eq_self_of_all (s : Str) (h : ∀ c ∈ s, isPySpace c = false) :
    pyRstrip s = s := by
  unfold pyRstrip
  rw [dropWhile_eq_self_of isPySpace s.reverse (by simpa using h)]
  simp

theorem pyLstrip_eq_self_of_all (s : Str) (h : ∀ c ∈ s, isPySpace c = false) :
    pyLstrip s = s :=
  dropWhile_eq_self_of isPySpace s h

theorem pyStrip_eq_self (s : Str) (h1 : pyLstrip s = s) (h2 : pyRstrip s = s) :
    pyStrip s = s := by
  simp [pyStrip, h1, h2]

theorem pyStrip_wrapped (s : Str) :
    pyStrip ('\n' :: (s ++ ['\n', '\n'])) = pyStrip s := by
  rw [pyStrip_cons_space _ (by decide)]
  have : s ++ ['\n', '\n'] = (s ++ ['\n']) ++ ['\n'] := by simp
  rw [this, pyStrip_snoc_space _ (by decide), pyStrip_snoc_space _ (by decide)]

theorem splitNL_ne_nil (s : Str) : splitNL s ≠ [] := by
  cases s with
  | nil => simp [splitNL]
  | cons c t =>
    by_cases hc : c = '\n'
    · simp [splitNL, hc]
    · cases h : splitNL t <;> simp [splitNL, hc, h]

theorem splitNL_append_nl (x y : Str) :
    splitNL (x ++ '\n' :: y) = splitNL x ++ splitNL y := by
  induction x with
  | nil => simp [splitNL]
  | cons c t ih =>
    by_cases hc : c = '\n'
    · simp [splitNL, hc, ih]
    · obtain ⟨m, ls, hm⟩ := List.exists_cons_of_ne_nil (splitNL_ne_nil t)
      have h1 : splitNL (t ++ '\n' :: y) = m :: (ls ++ splitNL y) := by
        rw [ih, hm, List.cons_append]
      rw [List.cons_append]
      rw [show splitNL (c :: (t ++ '\n' :: y)) = (c :: m) :: (ls ++ splitNL y) from by
        rw [splitNL, if_neg hc, h1]]
      rw [show splitNL (c :: t) = (c :: m) :: ls from by
        rw [splitNL, if_neg hc, hm]]
      simp

theorem splitNL_of_no_nl (x : Str) (h : '\n' ∉ x) : splitNL x = [x] := by
  induction x with
  | nil => rfl
  | cons c t ih =>
    have hc : ¬ c = '\n' := fun hcc => h (hcc ▸ List.mem_cons_self c t)
    have ht : '\n' ∉ t := fun hm => h (List.mem_cons_of_mem c hm)
    simp [splitNL, hc, ih ht]

theorem joinNL_splitNL (s : Str) : joinNL (splitNL s) = s := by
  induction s with
  | nil => rfl
  | cons c t ih =>
    by_cases hc : c = '\n'
    · obtain ⟨m, ls, hm⟩ := List.exists_cons_of_ne_nil (splitNL_ne_nil t)
      subst hc
      rw [show splitNL ('\n' :: t) = [] :: splitNL t by simp [splitNL]]
      rw [hm] at ih ⊢
      show [] ++ '\n' :: joinNL (m :: ls) = '\n' :: t
      simp [ih]
    · obtain ⟨m, ls, hm⟩ := List.exists_cons_of_ne_nil (splitNL_ne_nil t)
      rw [show splitNL (c :: t) = (c :: m) :: ls by simp [splitNL, hc, hm]]
      rw [hm] at ih
      cases ls with
      | nil => simpa [joinNL] using congrArg (c :: ·) ih
      | cons l2 lt =>
        show (c :: m) ++ '\n' :: joinNL (l2 :: lt) = c :: t
        have : m ++ '\n' :: joinNL (l2 :: lt) = t := ih
        simpa using this

theorem splitNL_joinNL (ls : List Str) (h : ls ≠ []) :
    splitNL (joinNL ls) = ls.flatMap splitNL := by
  induction ls with
  | nil => exact absurd rfl h
  | cons l t ih =>
    cases t with
    | nil => simp [joinNL]
    | cons l2 tt =>
      show splitNL (l ++ '\n' :: joinNL (l2 :: tt)) = _
      rw [splitNL_append_nl, ih (by simp)]
      simp

theorem joinNL_cons_of_ne (l : Str) (t : List Str) (ht : t ≠ []) :
    joinNL (l :: t) = l ++ '\n' :: joinNL t := by
  obtain ⟨m, tt, rfl⟩ := List.exists_cons_of_ne_nil ht
  rfl

theorem joinNL_append (xs ys : List Str) (hx : xs ≠ []) (hy : ys ≠ []) :
    joinNL (xs ++ ys) = joinNL xs ++ '\n' :: joinNL ys := by
  induction xs with
  | nil => exact absurd rfl hx
  | cons x xt ih =>
    cases xt with
    | nil =>
      obtain ⟨y, yt, rfl⟩ := List.exists_cons_of_ne_nil hy
      rfl
    | cons x2 xtt =>
      rw [List.cons_append,
        joinNL_cons_of_ne x _ (List.append_ne_nil_of_left_ne_nil (by simp) ys),
        ih (by simp), joinNL_cons_of_ne x (x2 :: xtt) (by simp)]
      simp

theorem digitChar_props (k : Nat) (h : k < 10) :
    isDigitCh (digitChar k) = true ∧ isPySpace (digitChar k) = false ∧
      digitChar k ≠ '\n' ∧ digitChar k ≠ ':' ∧ isSepCh (digitChar k) = false ∧
      digitVal (digitChar k) = k := by
  interval_cases k <;> exact ⟨rfl, rfl, by decide, by decide, rfl, rfl⟩

theorem digitsAux_chars (f : Nat) :
    ∀ n, ∀ c ∈ digitsAux f n, ∃ k, k < 10 ∧ c = digitChar k := by
  induction f with
  | zero => intro n c hc; simp [digitsAux] at hc
  | succ f ih =>
    intro n c hc
    by_cases hn : n = 0
    · simp [digitsAux, hn] at hc
    · rw [digitsAux, if_neg hn] at hc
      rcases List.mem_append.mp hc with h1 | h2
      · exact ih (n / 10) c h1
      · have : c = digitChar (n % 10) := by simpa using h2
        exact ⟨n % 10, Nat.mod_lt n (by omega), this⟩

theorem strOfNat_chars (n : Nat) :
    ∀ c ∈ strOfNat n, ∃ k, k < 10 ∧ c = digitChar k := by
  intro c hc
  by_cases hn : n = 0
  · rw [strOfNat, if_pos hn] at hc
    exact ⟨0, by omega, by simpa using hc⟩
  · rw [strOfNat, if_neg hn] at hc
    exact digitsAux_chars (n + 1) n c hc

theorem parseNat_snoc (x : Str) (c : Char) :
    parseNat (x ++ [c]) = 10 * parseNat x + digitVal c := by
  simp [parseNat, List.foldl_append]

theorem parseNat_digitsAux (f : Nat) :
    ∀ n, n < 10 ^ f → parseNat (digitsAux f n) = n := by
  induction f with
  | zero => intro n hn; interval_cases n; rfl
  | succ f ih =>
    intro n hn
    by_cases h0 : n = 0
    · simp [digitsAux, h0, parseNat]
    · rw [digitsAux, if_neg h0, parseNat_snoc,
        ih (n / 10) (by
          have : n < 10 ^ f * 10 := by rw [← pow_succ]; exact hn
          exact Nat.div_lt_of_lt_mul (by omega)),
        (digitChar_props (n % 10) (Nat.mod_lt n (by omega))).2.2.2.2.2]
      omega

theorem parseNat_strOfNat (n : Nat) : parseNat (strOfNat n) = n := by
  by_cases hn : n = 0
  · simp [strOfNat, hn, parseNat, digitVal]
  · rw [strOfNat, if_neg hn]
    refine parseNat_digitsAux (n + 1) n ?_
    calc n < 10 ^ n := Nat.lt_pow_self (by omega) n
    _ ≤ 10 ^ (n + 1) := Nat.pow_le_pow_right (by omega) (Nat.le_succ n)

theorem strOfNat_ne_nil (n : Nat) : strOfNat n ≠ [] := by
  by_cases hn : n = 0
  · simp [strOfNat, hn]
  · rw [strOfNat, if_neg hn, digitsAux, if_neg hn]
    exact List.append_ne_nil_of_right_ne_nil _ (by simp)

theorem strOfNat_not_space (n : Nat) : ∀ c ∈ strOfNat n, isPySpace c = false := by
  intro c hc
  obtain ⟨k, hk, rfl⟩ := strOfNat_chars n c hc
  exact (digitChar_props k hk).2.1

theorem strOfNat_digit (n : Nat) : ∀ c ∈ strOfNat n, isDigitCh c = true := by
  intro c hc
  obtain ⟨k, hk, rfl⟩ := strOfNat_chars n c hc
  exact (digitChar_props k hk).1

theorem strOfNat_no_nl (n : Nat) : '\n' ∉ strOfNat n := by
  intro hc
  obtain ⟨k, hk, hd⟩ := strOfNat_chars n '\n' hc
  exact (digitChar_props k hk).2.2.1 hd.symm

theorem pyRstrip_strOfNat (n : Nat) : pyRstrip (strOfNat n) = strOfNat n :=
  pyRstrip_eq_self_of_all _ (strOfNat_not_space n)

theorem headerLineTxt_eq_nil (r : NotesRecord) (h : r.slide_title = []) :
    headerLineTxt r = 'S' :: 'l' :: 'i' :: 'd' :: 'e' :: (' ' :: strOfNat r.slide_number) := by
  rw [headerLineTxt, if_pos h]
  rfl

theorem headerLineTxt_eq_title (r : NotesRecord) (h : ¬ r.slide_title = []) :
    headerLineTxt r =
      'S' :: 'l' :: 'i' :: 'd' :: 'e' ::
        (' ' :: (strOfNat r.slide_number ++ (':' :: ' ' :: r.slide_title))) := by
  rw [headerLineTxt, if_neg h, List.append_assoc, List.append_assoc]
  rfl

theorem matchHeaderAfterSlide_no_title (n : Nat) :
    matchHeaderAfterSlide (' ' :: strOfNat n) = some (n, []) := by
  have hsp : isPySpace ' ' = true := by decide
  have h1 : List.dropWhile isPySpace (strOfNat n) = strOfNat n :=
    dropWhile_eq_self_of _ _ (strOfNat_not_space n)
  have h2 : List.takeWhile isDigitCh (strOfNat n) = strOfNat n := by
    have := @List.takeWhile_append_of_pos Char isDigitCh (strOfNat n) ([] : Str)
      (strOfNat_digit n)
    simpa using this
  have h3 : List.dropWhile isDigitCh (strOfNat n) = [] := by
    have := @List.dropWhile_append_of_pos Char isDigitCh (strOfNat n) ([] : Str)
      (strOfNat_digit n)
    simpa using this
  simp only [matchHeaderAfterSlide, hsp, if_true, h1, h2, h3,
    if_neg (strOfNat_ne_nil n), parseNat_strOfNat]

theorem matchHeaderAfterSlide_title (n : Nat) (t : Str) (ht : pyLstrip t = t) :
    matchHeaderAfterSlide (' ' :: (strOfNat n ++ (':' :: ' ' :: t))) = some (n, t) := by
  have hsp : isPySpace ' ' = true := by decide
  have h1 : List.dropWhile isPySpace (strOfNat n ++ (':' :: ' ' :: t))
      = strOfNat n ++ (':' :: ' ' :: t) :=
    dropWhile_append_of_head _ _ _
      (dropWhile_eq_self_of _ _ (strOfNat_not_space n)) (strOfNat_ne_nil n)
  have h2 : List.takeWhile isDigitCh (strOfNat n ++ (':' :: ' ' :: t)) = strOfNat n := by
    have := @List.takeWhile_append_of_pos Char isDigitCh (strOfNat n) (':' :: ' ' :: t)
      (strOfNat_digit n)
    rw [this, List.takeWhile_cons_of_neg (by decide)]
    simp
  have h3 : List.dropWhile isDigitCh (strOfNat n ++ (':' :: ' ' :: t)) = ':' :: ' ' :: t := by
    rw [List.dropWhile_append_of_pos (strOfNat_digit n),
      List.dropWhile_cons_of_neg (by decide)]
  have h4 : List.dropWhile isPySpace (' ' :: t) = t := by
    rw [List.dropWhile_cons_of_pos (by decide)]
    exact ht
  simp only [matchHeaderAfterSlide, hsp, if_true, h1, h2, h3, h4,
    if_neg (strOfNat_ne_nil n), parseNat_strOfNat]

theorem titleOK_parts (t : Str) (h : titleOK t = true) :
    t.contains '\n' = false ∧ pyLstrip t = t ∧ pyRstrip t = t := by
  have := h
  unfold titleOK at this
  simp only [Bool.and_eq_true, Bool.not_eq_true', beq_iff_eq] at this
  exact ⟨this.1.1, this.1.2, this.2⟩

theorem matchTxtHeader_headerLine (r : NotesRecord) (ht : titleOK r.slide_title = true) :
    matchTxtHeader (headerLineTxt r) = some (r.slide_number, r.slide_title) := by
  have hci : ciEq ['S', 'l', 'i', 'd', 'e'] ("Slide".data) = true := by decide
  by_cases h : r.slide_title = []
  · rw [headerLineTxt_eq_nil r h]
    simp only [matchTxtHeader, hci, if_true]
    rw [matchHeaderAfterSlide_no_title, h]
  · rw [headerLineTxt_eq_title r h]
    simp only [matchTxtHeader, hci, if_true]
    exact matchHeaderAfterSlide_title r.slide_number r.slide_title (titleOK_parts _ ht).2.1

theorem no_nl_headerLineTxt (r : NotesRecord) (ht : titleOK r.slide_title = true) :
    '\n' ∉ headerLineTxt r := by
  have hnl : '\n' ∉ r.slide_title := by
    have := (titleOK_parts _ ht).1
    intro hm
    rw [List.contains_eq_any_beq] at this
    have : ∀ c ∈ r.slide_title, ¬ ('\n' == c) = true := by
      intro c hc
      simpa using fun hh => by simp [List.any_eq_true] at this; exact this c hc hh
    exact absurd (by simp : ('\n' == '\n') = true) (this '\n' hm)
  by_cases h : r.slide_title = []
  · rw [headerLineTxt_eq_nil r h]
    intro hm
    simp only [List.mem_cons] at hm
    rcases hm with h1 | h1 | h1 | h1 | h1 | hm
    · exact absurd h1 (by decide)
    · exact absurd h1 (by decide)
    · exact absurd h1 (by decide)
    · exact absurd h1 (by decide)
    · exact absurd h1 (by decide)
    · rcases hm with h2 | h2
      · exact absurd h2 (by decide)
      · exact strOfNat_no_nl r.slide_number h2
  · rw [headerLineTxt_eq_title r h]
    intro hm
    simp only [List.mem_cons] at hm
    rcases hm with h1 | h1 | h1 | h1 | h1 | hm
    · exact absurd h1 (by decide)
    · exact absurd h1 (by decide)
    · exact absurd h1 (by decide)
    · exact absurd h1 (by decide)
    · exact absurd h1 (by decide)
    · rcases hm with h2 | h2
      · exact absurd h2 (by decide)
      · rcases List.mem_append.mp h2 with h3 | h3
        · exact strOfNat_no_nl r.slide_number h3
        · rcases List.mem_cons.mp h3 with h4 | h4
          · exact absurd h4 (by decide)
          · rcases List.mem_cons.mp h4 with h5 | h5
            · exact absurd h5 (by decide)
            · exact hnl h5

theorem pyStrip_headerLineTxt (r : NotesRecord) (ht : titleOK r.slide_title = true) :
    pyStrip (headerLineTxt r) = headerLineTxt r := by
  by_cases h : r.slide_title = []
  · rw [headerLineTxt_eq_nil r h]
    refine pyStrip_eq_self _ (pyLstrip_cons_not _ (by decide)) ?_
    have : ('S' :: 'l' :: 'i' :: 'd' :: 'e' :: (' ' :: strOfNat r.slide_number) : Str)
        = ['S', 'l', 'i', 'd', 'e', ' '] ++ strOfNat r.slide_number := rfl
    rw [this]
    exact pyRstrip_append_of _ _ (pyRstrip_strOfNat _) (strOfNat_ne_nil _)
  · rw [headerLineTxt_eq_title r h]
    refine pyStrip_eq_self _ (pyLstrip_cons_not _ (by decide)) ?_
    have hsh : ('S' :: 'l' :: 'i' :: 'd' :: 'e' ::
        (' ' :: (strOfNat r.slide_number ++ (':' :: ' ' :: r.slide_title))) : Str)
        = (['S', 'l', 'i', 'd', 'e', ' '] ++ strOfNat r.slide_number ++ [':', ' '])
          ++ r.slide_title := by
      simp
    rw [hsh]
    exact pyRstrip_append_of _ _ (titleOK_parts _ ht).2.2 h

theorem isSepLine_cons_false (c : Char) (l : Str) (h : isSepCh c = false) :
    isSepLine (c :: l) = false := by
  simp [isSepLine, List.all_cons, h]

theorem isSepLine_headerLineTxt (r : NotesRecord) : isSepLine (headerLineTxt r) = false := by
  by_cases h : r.slide_title = []
  · rw [headerLineTxt_eq_nil r h]; exact isSepLine_cons_false _ _ (by decide)
  · rw [headerLineTxt_eq_title r h]; exact isSepLine_cons_false _ _ (by decide)

theorem stepP_skip (F : FmtP) (st : PState) (line : Str)
    (h : F.skip (pyStrip line) = true) : stepP F st line = st := by
  simp [stepP, h]

theorem stepP_header_line (F : FmtP) (st : PState) (line : Str) (n : Nat) (t : Str)
    (hs : F.skip (pyStrip line) = false) (hh : F.header (pyStrip line) = some (n, t)) :
    stepP F st line = ⟨st.acc ++ flushCur F st, some (n, t), []⟩ := by
  simp [stepP, hs, hh]

theorem stepP_ph (F : FmtP) (st : PState) (line : Str)
    (hs : F.skip (pyStrip line) = false) (hh : F.header (pyStrip line) = none)
    (hp : pyStrip line = F.ph) : stepP F st line = st := by
  have hs' : F.skip F.ph = false := by rw [← hp]; exact hs
  have hh' : F.header F.ph = none := by rw [← hp]; exact hh
  cases hcur : st.cur <;> simp [stepP, hp, hs', hh', hcur]

theorem stepP_none (F : FmtP) (st : PState) (line : Str) (hcur : st.cur = none)
    (hs : F.skip (pyStrip line) = false) (hh : F.header (pyStrip line) = none) :
    stepP F st line = st := by
  cases st
  simp_all [stepP, hs, hh]

theorem stepP_body (F : FmtP) (acc : List NotesRecord) (hd : Nat × Str) (buf : List Str)
    (line : Str) (hs : F.skip (pyStrip line) = false) (hh : F.header (pyStrip line) = none)
    (hp : ¬ (pyStrip line = F.ph)) :
    stepP F ⟨acc, some hd, buf⟩ line
      = ⟨acc, some hd, buf ++ [if F.useStripped then pyStrip line else pyRstrip line]⟩ := by
  simp [stepP, hs, hh, hp]

theorem map_eq_self_of (f : Str → Str) (ls : List Str) (h : ∀ l ∈ ls, f l = l) :
    ls.map f = ls := by
  induction ls with
  | nil => rfl
  | cons l t ih =>
    rw [List.map_cons, h l (List.mem_cons_self l t), ih (fun x hx => h x (List.mem_cons_of_mem l hx))]

theorem lineOKTxt_parts (l : Str) (h : lineOKTxt l = true) :
    pyRstrip l = l ∧ isSepLine (pyStrip l) = false ∧ matchTxtHeader (pyStrip l) = none
      ∧ ¬ (pyStrip l = phTxt) := by
  unfold lineOKTxt at h
  simp only [Bool.and_eq_true, Bool.not_eq_true', beq_iff_eq, Option.isNone_iff_eq_none,
    beq_eq_false_iff_ne, ne_eq] at h
  exact ⟨h.1.1.1, h.1.1.2, h.1.2, h.2⟩

theorem notesOKTxt_parts (s : Str) (h : notesOKTxt s = true) :
    (∀ l ∈ splitNL s, lineOKTxt l = true) ∧ ¬ (pyStrip s = phTxt) := by
  unfold notesOKTxt at h
  simp only [Bool.and_eq_true, Bool.not_eq_true', beq_iff_eq, List.all_eq_true,
    beq_eq_false_iff_ne, ne_eq] at h
  exact ⟨h.1, h.2⟩

theorem safeTxt_parts (r : NotesRecord) (h : safeTxt r = true) :
    titleOK r.slide_title = true ∧ notesOKTxt r.notes = true := by
  unfold safeTxt at h
  simpa [Bool.and_eq_true] using h

theorem stepTxt_sepDash (st : PState) : stepP fmtTxt st sepDash = st :=
  stepP_skip _ _ _ (by decide)

theorem stepTxt_sepEq (st : PState) : stepP fmtTxt st sepEq = st :=
  stepP_skip _ _ _ (by decide)

theorem stepTxt_ph (st : PState) : stepP fmtTxt st phTxt = st :=
  stepP_ph _ _ _ (by decide) (by decide) (by decide)

theorem stepTxt_blank (acc : List NotesRecord) (hd : Nat × Str) (buf : List Str) :
    stepP fmtTxt ⟨acc, some hd, buf⟩ [] = ⟨acc, some hd, buf ++ [[]]⟩ := by
  have := stepP_body fmtTxt acc hd buf [] (by decide) (by decide) (by decide)
  simpa using this

theorem stepTxt_header (st : PState) (r : NotesRecord) (ht : titleOK r.slide_title = true) :
    stepP fmtTxt st (headerLineTxt r)
      = ⟨st.acc ++ flushCur fmtTxt st, some (r.slide_number, r.slide_title), []⟩ :=
  stepP_header_line _ _ _ _ _
    (by rw [show fmtTxt.skip = isSepLine from rfl, pyStrip_headerLineTxt r ht]
        exact isSepLine_headerLineTxt r)
    (by rw [show fmtTxt.header = matchTxtHeader from rfl, pyStrip_headerLineTxt r ht]
        exact matchTxtHeader_headerLine r ht)

theorem stepTxt_body (acc : List NotesRecord) (hd : Nat × Str) (buf : List Str) (l : Str)
    (hl : lineOKTxt l = true) :
    stepP fmtTxt ⟨acc, some hd, buf⟩ l = ⟨acc, some hd, buf ++ [l]⟩ := by
  obtain ⟨h1, h2, h3, h4⟩ := lineOKTxt_parts l hl
  have := stepP_body fmtTxt acc hd buf l h2 h3 h4
  rw [this]
  simp [fmtTxt, h1]

theorem foldTxt_body (ls : List Str) (hls : ∀ l ∈ ls, lineOKTxt l = true)
    (acc : List NotesRecord) (hd : Nat × Str) (buf : List Str) :
    List.foldl (stepP fmtTxt) ⟨acc, some hd, buf⟩ ls = ⟨acc, some hd, buf ++ ls⟩ := by
  induction ls generalizing buf with
  | nil => simp
  | cons l t ih =>
    rw [List.foldl_cons, stepTxt_body acc hd buf l (hls l (List.mem_cons_self l t)),
      ih (fun x hx => hls x (List.mem_cons_of_mem l hx))]
    simp

theorem txt_block_fold (r : NotesRecord) (h : safeTxt r = true) (st : PState) :
    List.foldl (stepP fmtTxt) st (txtLines r)
      = ⟨st.acc ++ flushCur fmtTxt st, some (r.slide_number, r.slide_title),
          bufShape r.notes⟩ := by
  obtain ⟨ht, hn⟩ := safeTxt_parts r h
  rw [txtLines, List.foldl_append, List.foldl_append]
  rw [show List.foldl (stepP fmtTxt) st [headerLineTxt r, sepDash, []]
      = ⟨st.acc ++ flushCur fmtTxt st, some (r.slide_number, r.slide_title), [[]]⟩ from by
    rw [List.foldl_cons, stepTxt_header st r ht, List.foldl_cons, stepTxt_sepDash,
      List.foldl_cons, stepTxt_blank, List.foldl_nil]
    rfl]
  rw [show List.foldl (stepP fmtTxt)
        ⟨st.acc ++ flushCur fmtTxt st, some (r.slide_number, r.slide_title), [[]]⟩
        (if r.notes = [] then [phTxt] else splitNL r.notes)
      = ⟨st.acc ++ flushCur fmtTxt st, some (r.slide_number, r.slide_title),
          ([] : Str) :: bodyLinesOf r.notes⟩ from by
    by_cases hb : r.notes = []
    · rw [if_pos hb, List.foldl_cons, stepTxt_ph, List.foldl_nil, bodyLinesOf, if_pos hb]
    · rw [if_neg hb, foldTxt_body _ (notesOKTxt_parts _ hn).1, bodyLinesOf, if_neg hb]
      rfl]
  rw [List.foldl_cons, stepTxt_blank, List.foldl_cons, stepTxt_sepEq, List.foldl_cons,
    stepTxt_blank, List.foldl_nil, bufShape]
  simp

theorem flushCur_bufShape (F : FmtP) (acc : List NotesRecord) (n : Nat) (t : Str)
    (notes : Str) (hph : ¬ (pyStrip notes = F.ph)) :
    flushCur F ⟨acc, some (n, t), bufShape notes⟩ = [⟨n, t, pyStrip notes⟩] := by
  by_cases h : notes = []
  · subst h
    show [NotesRecord.mk n t (collapsePh F (pyStrip (joinNL (bufShape ([] : Str)))))]
      = [NotesRecord.mk n t (pyStrip ([] : Str))]
    rw [show pyStrip (joinNL (bufShape ([] : Str))) = [] from rfl, collapsePh, ite_self]
    rfl
  · show [NotesRecord.mk n t (collapsePh F (pyStrip (joinNL (bufShape notes))))]
      = [NotesRecord.mk n t (pyStrip notes)]
    have h1 : joinNL (bufShape notes) = '\n' :: (notes ++ ['\n', '\n']) := by
      rw [bufShape, bodyLinesOf, if_neg h,
        joinNL_cons_of_ne _ _ (List.append_ne_nil_of_left_ne_nil (splitNL_ne_nil notes) _),
        joinNL_append _ _ (splitNL_ne_nil notes) (by simp), joinNL_splitNL]
      rfl
    rw [h1, pyStrip_wrapped, collapsePh, if_neg hph]

theorem runPF_txt (rs : List NotesRecord) (h : ∀ r ∈ rs, safeTxt r = true) (st : PState) :
    runPF fmtTxt st (rs.flatMap txtLines)
      = st.acc ++ flushCur fmtTxt st ++ rs.map trimRec := by
  induction rs generalizing st with
  | nil => simp [runPF]
  | cons r rest ih =>
    have hr := h r (List.mem_cons_self r rest)
    rw [List.flatMap_cons, runPF, List.foldl_append, txt_block_fold r hr st]
    have hrec := ih (fun x hx => h x (List.mem_cons_of_mem r hx))
      ⟨st.acc ++ flushCur fmtTxt st, some (r.slide_number, r.slide_title), bufShape r.notes⟩
    rw [runPF] at hrec
    rw [hrec, flushCur_bufShape fmtTxt _ _ _ _ (notesOKTxt_parts _ (safeTxt_parts r hr).2).2]
    simp [trimRec]

theorem splitNL_txtRawBlock (r : NotesRecord) (h : safeTxt r = true) :
    (txtRawBlock r).flatMap splitNL = txtLines r := by
  obtain ⟨ht, _⟩ := safeTxt_parts r h
  rw [txtRawBlock, txtLines]
  simp only [List.flatMap_cons, List.flatMap_nil,
    splitNL_of_no_nl _ (no_nl_headerLineTxt r ht),
    show splitNL sepDash = [sepDash] from by decide,
    show splitNL sepEq = [sepEq] from by decide,
    show splitNL ([] : Str) = [[]] from rfl]
  by_cases hb : r.notes = []
  · rw [if_pos hb, if_pos hb, show splitNL phTxt = [phTxt] from by decide]
    simp
  · rw [if_neg hb, if_neg hb]
    simp

theorem flat_split_txt (rs : List NotesRecord) (h : ∀ r ∈ rs, safeTxt r = true) :
    (rs.flatMap txtRawBlock).flatMap splitNL = rs.flatMap txtLines := by
  induction rs with
  | nil => rfl
  | cons r rest ih =>
    rw [List.flatMap_cons, List.flatMap_cons, List.flatMap_append,
      splitNL_txtRawBlock r (h r (List.mem_cons_self r rest)),
      ih (fun x hx => h x (List.mem_cons_of_mem r hx))]

theorem roundtrip_txt (rs : List NotesRecord) (h : ∀ r ∈ rs, safeTxt r = true) :
    parse_txt (export_to_txt rs) = rs.map trimRec := by
  cases rs with
  | nil => rfl
  | cons r rest =>
    have hne : ((r :: rest).flatMap txtRawBlock) ≠ [] := by
      rw [List.flatMap_cons]
      exact List.append_ne_nil_of_left_ne_nil (by simp [txtRawBlock]) _
    rw [parse_txt, export_to_txt, splitNL_joinNL _ hne, flat_split_txt _ h, runP,
      runPF_txt _ h]
    rfl

theorem headerLineTxt_ne_nil (r : NotesRecord) : headerLineTxt r ≠ [] := by
  by_cases h : r.slide_title = []
  · rw [headerLineTxt_eq_nil r h]; simp
  · rw [headerLineTxt_eq_title r h]; simp

theorem pyLstrip_headerLineTxt (r : NotesRecord) :
    pyLstrip (headerLineTxt r) = headerLineTxt r := by
  by_cases h : r.slide_title = []
  · rw [headerLineTxt_eq_nil r h]; exact pyLstrip_cons_not _ (by decide)
  · rw [headerLineTxt_eq_title r h]; exact pyLstrip_cons_not _ (by decide)

theorem pyRstrip_headerLineTxt (r : NotesRecord) (ht : titleOK r.slide_title = true) :
    pyRstrip (headerLineTxt r) = headerLineTxt r := by
  have h1 := pyStrip_headerLineTxt r ht
  rw [pyStrip, pyLstrip_headerLineTxt r] at h1
  exact h1

theorem headerLineMd_eq (r : NotesRecord) :
    headerLineMd r = '#' :: '#' :: ' ' :: headerLineTxt r := rfl

theorem pyStrip_headerLineMd (r : NotesRecord) (ht : titleOK r.slide_title = true) :
    pyStrip (headerLineMd r) = headerLineMd r := by
  rw [headerLineMd_eq]
  refine pyStrip_eq_self _ (pyLstrip_cons_not _ (by decide)) ?_
  rw [show ('#' :: '#' :: ' ' :: headerLineTxt r : Str)
    = ['#', '#', ' '] ++ headerLineTxt r from rfl]
  exact pyRstrip_append_of _ _ (pyRstrip_headerLineTxt r ht) (headerLineTxt_ne_nil r)

theorem mdSkip_cons2 (X : Str) : mdSkip ('#' :: '#' :: X) = false := by
  unfold mdSkip
  rw [show ('#' :: '#' :: X : Str).take 2 = ['#', '#'] from rfl,
    show ((['#', '#'] : Str) == "# ".data) = false from by decide,
    show (('#' :: '#' :: X : Str) == hrMd) = false from
      beq_eq_false_iff_ne.mpr (by simp [hrMd])]
  rfl

theorem matchMdHeader_headerLineMd (r : NotesRecord) (ht : titleOK r.slide_title = true) :
    matchMdHeader (headerLineMd r) = some (r.slide_number, r.slide_title) := by
  rw [headerLineMd_eq]
  rw [show matchMdHeader ('#' :: '#' :: ' ' :: headerLineTxt r)
    = if isPySpace ' ' then matchTxtHeader ((headerLineTxt r).dropWhile isPySpace)
      else none from rfl]
  rw [if_pos (by decide : (isPySpace ' ') = true),
    show (headerLineTxt r).dropWhile isPySpace = headerLineTxt r from
      pyLstrip_headerLineTxt r]
  exact matchTxtHeader_headerLine r ht

theorem lineOKMd_parts (l : Str) (h : lineOKMd l = true) :
    pyRstrip l = l ∧ mdSkip (pyStrip l) = false ∧ matchMdHeader (pyStrip l) = none
      ∧ ¬ (pyStrip l = phMd) := by
  unfold lineOKMd at h
  simp only [Bool.and_eq_true, Bool.not_eq_true', beq_iff_eq, Option.isNone_iff_eq_none,
    beq_eq_false_iff_ne, ne_eq] at h
  exact ⟨h.1.1.1, h.1.1.2, h.1.2, h.2⟩

theorem notesOKMd_parts (s : Str) (h : notesOKMd s = true) :
    (∀ l ∈ splitNL s, lineOKMd l = true) ∧ ¬ (pyStrip s = phMd) := by
  unfold notesOKMd at h
  simp only [Bool.and_eq_true, Bool.not_eq_true', beq_iff_eq, List.all_eq_true,
    beq_eq_false_iff_ne, ne_eq] at h
  exact ⟨h.1, h.2⟩

theorem safeMd_parts (r : NotesRecord) (h : safeMd r = true) :
    titleOK r.slide_title = true ∧ notesOKMd r.notes = true := by
  unfold safeMd at h
  simpa [Bool.and_eq_true] using h

theorem stepMd_title (st : PState) : stepP fmtMd st mdTitleLine = st :=
  stepP_skip _ _ _ (by decide)

theorem stepMd_hr (st : PState) : stepP fmtMd st hrMd = st :=
  stepP_skip _ _ _ (by decide)

theorem stepMd_ph (st : PState) : stepP fmtMd st phMd = st :=
  stepP_ph _ _ _ (by decide) (by decide) (by decide)

theorem stepMd_blank (acc : List NotesRecord) (hd : Nat × Str) (buf : List Str) :
    stepP fmtMd ⟨acc, some hd, buf⟩ [] = ⟨acc, some hd, buf ++ [[]]⟩ := by
  have := stepP_body fmtMd acc hd buf [] (by decide) (by decide) (by decide)
  simpa using this

theorem stepMd_header (st : PState) (r : NotesRecord) (ht : titleOK r.slide_title = true) :
    stepP fmtMd st (headerLineMd r)
      = ⟨st.acc ++ flushCur fmtMd st, some (r.slide_number, r.slide_title), []⟩ :=
  stepP_header_line _ _ _ _ _
    (by rw [show fmtMd.skip = mdSkip from rfl, pyStrip_headerLineMd r ht, headerLineMd_eq]
        exact mdSkip_cons2 _)
    (by rw [show fmtMd.header = matchMdHeader from rfl, pyStrip_headerLineMd r ht]
        exact matchMdHeader_headerLineMd r ht)

theorem stepMd_body (acc : List NotesRecord) (hd : Nat × Str) (buf : List Str) (l : Str)
    (hl : lineOKMd l = true) :
    stepP fmtMd ⟨acc, some hd, buf⟩ l = ⟨acc, some hd, buf ++ [l]⟩ := by
  obtain ⟨h1, h2, h3, h4⟩ := lineOKMd_parts l hl
  have := stepP_body fmtMd acc hd buf l h2 h3 h4
  rw [this]
  simp [fmtMd, h1]

theorem foldMd_body (ls : List Str) (hls : ∀ l ∈ ls, lineOKMd l = true)
    (acc : List NotesRecord) (hd : Nat × Str) (buf : List Str) :
    List.foldl (stepP fmtMd) ⟨acc, some hd, buf⟩ ls = ⟨acc, some hd, buf ++ ls⟩ := by
  induction ls generalizing buf with
  | nil => simp
  | cons l t ih =>
    rw [List.foldl_cons, stepMd_body acc hd buf l (hls l (List.mem_cons_self l t)),
      ih (fun x hx => hls x (List.mem_cons_of_mem l hx))]
    simp

theorem md_block_fold (r : NotesRecord) (h : safeMd r = true) (st : PState) :
    List.foldl (stepP fmtMd) st (mdLines r)
      = ⟨st.acc ++ flushCur fmtMd st, some (r.slide_number, r.slide_title),
          bufShape r.notes⟩ := by
  obtain ⟨ht, hn⟩ := safeMd_parts r h
  rw [mdLines, List.foldl_append, List.foldl_append]
  rw [show List.foldl (stepP fmtMd) st [headerLineMd r, []]
      = ⟨st.acc ++ flushCur fmtMd st, some (r.slide_number, r.slide_title), [[]]⟩ from by
    rw [List.foldl_cons, stepMd_header st r ht, List.foldl_cons, stepMd_blank,
      List.foldl_nil]
    rfl]
  rw [show List.foldl (stepP fmtMd)
        ⟨st.acc ++ flushCur fmtMd st, some (r.slide_number, r.slide_title), [[]]⟩
        (if r.notes = [] then [phMd] else splitNL r.notes)
      = ⟨st.acc ++ flushCur fmtMd st, some (r.slide_number, r.slide_title),
          ([] : Str) :: bodyLinesOf r.notes⟩ from by
    by_cases hb : r.notes = []
    · rw [if_pos hb, List.foldl_cons, stepMd_ph, List.foldl_nil, bodyLinesOf, if_pos hb]
    · rw [if_neg hb, foldMd_body _ (notesOKMd_parts _ hn).1, bodyLinesOf, if_neg hb]
      rfl]
  rw [List.foldl_cons, stepMd_blank, List.foldl_cons, stepMd_hr, List.foldl_cons,
    stepMd_blank, List.foldl_nil, bufShape]
  simp

theorem runPF_md (rs : List NotesRecord) (h : ∀ r ∈ rs, safeMd r = true) (st : PState) :
    runPF fmtMd st (rs.flatMap mdLines)
      = st.acc ++ flushCur fmtMd st ++ rs.map trimRec := by
  induction rs generalizing st with
  | nil => simp [runPF]
  | cons r rest ih =>
    have hr := h r (List.mem_cons_self r rest)
    rw [List.flatMap_cons, runPF, List.foldl_append, md_block_fold r hr st]
    have hrec := ih (fun x hx => h x (List.mem_cons_of_mem r hx))
      ⟨st.acc ++ flushCur fmtMd st, some (r.slide_number, r.slide_title), bufShape r.notes⟩
    rw [runPF] at hrec
    rw [hrec, flushCur_bufShape fmtMd _ _ _ _ (notesOKMd_parts _ (safeMd_parts r hr).2).2]
    simp [trimRec]

theorem no_nl_headerLineMd (r : NotesRecord) (ht : titleOK r.slide_title = true) :
    '\n' ∉ headerLineMd r := by
  rw [headerLineMd_eq]
  intro hm
  simp only [List.mem_cons] at hm
  rcases hm with h1 | h1 | h1 | hm
  · exact absurd h1 (by decide)
  · exact absurd h1 (by decide)
  · exact absurd h1 (by decide)
  · exact no_nl_headerLineTxt r ht hm

theorem splitNL_mdRawBlock (r : NotesRecord) (h : safeMd r = true) :
    (mdRawBlock r).flatMap splitNL = mdLines r := by
  obtain ⟨ht, _⟩ := safeMd_parts r h
  rw [mdRawBlock, mdLines]
  simp only [List.flatMap_cons, List.flatMap_nil,
    splitNL_of_no_nl _ (no_nl_headerLineMd r ht),
    show splitNL hrMd = [hrMd] from by decide,
    show splitNL ([] : Str) = [[]] from rfl]
  by_cases hb : r.notes = []
  · rw [if_pos hb, if_pos hb, show splitNL phMd = [phMd] from by decide]
    simp
  · rw [if_neg hb, if_neg hb]
    simp

theorem flat_split_md (rs : List NotesRecord) (h : ∀ r ∈ rs, safeMd r = true) :
    (rs.flatMap mdRawBlock).flatMap splitNL = rs.flatMap mdLines := by
  induction rs with
  | nil => rfl
  | cons r rest ih =>
    rw [List.flatMap_cons, List.flatMap_cons, List.flatMap_append,
      splitNL_mdRawBlock r (h r (List.mem_cons_self r rest)),
      ih (fun x hx => h x (List.mem_cons_of_mem r hx))]

theorem runPF_append (F : FmtP) (st : PState) (a b : List Str) :
    runPF F st (a ++ b) = runPF F (List.foldl (stepP F) st a) b := by
  simp [runPF, List.foldl_append]

theorem roundtrip_md (rs : List NotesRecord) (h : ∀ r ∈ rs, safeMd r = true) :
    parse_md (export_to_md rs) = rs.map trimRec := by
  have hne : ([mdTitleLine, ([] : Str)] ++ rs.flatMap mdRawBlock) ≠ [] := by simp
  rw [parse_md, export_to_md, splitNL_joinNL _ hne, List.flatMap_append,
    show ([mdTitleLine, ([] : Str)] : List Str).flatMap splitNL
      = [mdTitleLine, []] from by decide,
    flat_split_md rs h, runP, runPF_append,
    show List.foldl (stepP fmtMd) ⟨[], none, []⟩ [mdTitleLine, []]
      = (⟨[], none, []⟩ : PState) from by decide,
    runPF_md rs h]
  rfl

theorem headerLineDocx_eq_txt (r : NotesRecord)
    (hsan : sanitize_text r.slide_title = r.slide_title) :
    headerLineDocx r = headerLineTxt r := by
  unfold headerLineDocx headerLineTxt
  by_cases h : r.slide_title = []
  · rw [if_pos h, if_pos h]
  · rw [if_neg h, if_neg h, hsan]

theorem lineOKDocx_parts (l : Str) (h : lineOKDocx l = true) :
    ¬ (l = []) ∧ pyLstrip l = l ∧ pyRstrip l = l ∧ isSepLine l = false
      ∧ matchTxtHeader l = none ∧ ¬ (l = phTxt) := by
  unfold lineOKDocx at h
  simp only [Bool.and_eq_true, Bool.not_eq_true', beq_iff_eq, Option.isNone_iff_eq_none,
    beq_eq_false_iff_ne, ne_eq, List.isEmpty_eq_false] at h
  exact ⟨h.1.1.1.1.1, h.1.1.1.1.2, h.1.1.1.2, h.1.1.2, h.1.2, h.2⟩

theorem notesOKDocx_parts (s : Str) (h : notesOKDocx s = true) :
    sanitize_text s = s ∧ (s = [] ∨ ∀ l ∈ splitNL s, lineOKDocx l = true)
      ∧ ¬ (pyStrip s = phTxt) := by
  unfold notesOKDocx at h
  simp only [Bool.and_eq_true, Bool.or_eq_true, Bool.not_eq_true', beq_iff_eq,
    List.all_eq_true, beq_eq_false_iff_ne, ne_eq, List.isEmpty_iff] at h
  exact ⟨h.1.1, h.1.2, h.2⟩

theorem safeDocx_parts (r : NotesRecord) (h : safeDocx r = true) :
    titleOK r.slide_title = true ∧ sanitize_text r.slide_title = r.slide_title
      ∧ notesOKDocx r.notes = true := by
  unfold safeDocx at h
  simp only [Bool.and_eq_true, beq_iff_eq] at h
  exact ⟨h.1.1, h.1.2, h.2⟩

theorem pyStrip_of_lineOKDocx (l : Str) (hl : lineOKDocx l = true) : pyStrip l = l := by
  obtain ⟨_, h1, h2, _, _, _⟩ := lineOKDocx_parts l hl
  rw [pyStrip, h1, h2]

theorem filterMap_strip_self (ls : List Str)
    (h : ∀ l ∈ ls, pyStrip l = l ∧ ¬ (l = [])) :
    ls.filterMap (fun l => if pyStrip l = [] then none else some (pyStrip l)) = ls := by
  induction ls with
  | nil => rfl
  | cons l t ih =>
    obtain ⟨h1, h2⟩ := h l (List.mem_cons_self l t)
    rw [List.filterMap_cons, if_neg (by rw [h1]; exact h2), h1,
      ih (fun x hx => h x (List.mem_cons_of_mem l hx))]

theorem docxBodyParas_eq (s : Str) (hsan : sanitize_text s = s)
    (hall : ∀ l ∈ splitNL s, lineOKDocx l = true) : docxBodyParas s = splitNL s := by
  rw [docxBodyParas, hsan]
  exact filterMap_strip_self _ (fun l hl =>
    ⟨pyStrip_of_lineOKDocx l (hall l hl), (lineOKDocx_parts l (hall l hl)).1⟩)

theorem stepDocx_sepDash (st : PState) : stepP fmtDocx st sepDash = st :=
  stepP_skip _ _ _ (by decide)

theorem stepDocx_blank (st : PState) : stepP fmtDocx st [] = st :=
  stepP_skip _ _ _ (by decide)

theorem stepDocx_ph (st : PState) : stepP fmtDocx st phTxt = st :=
  stepP_ph _ _ _ (by decide) (by decide) (by decide)

theorem headerLineTxt_cons (r : NotesRecord) :
    ∃ X, headerLineTxt r = 'S' :: X := by
  by_cases h : r.slide_title = []
  · exact ⟨_, headerLineTxt_eq_nil r h⟩
  · exact ⟨_, headerLineTxt_eq_title r h⟩

theorem stepDocx_header (st : PState) (r : NotesRecord)
    (ht : titleOK r.slide_title = true)
    (hsan : sanitize_text r.slide_title = r.slide_title) :
    stepP fmtDocx st (headerLineDocx r)
      = ⟨st.acc ++ flushCur fmtDocx st, some (r.slide_number, r.slide_title), []⟩ := by
  rw [headerLineDocx_eq_txt r hsan]
  refine stepP_header_line _ _ _ _ _ ?_ ?_
  · rw [show fmtDocx.skip = (fun t => t.isEmpty || isSepLine t) from rfl,
      pyStrip_headerLineTxt r ht]
    show ((headerLineTxt r).isEmpty || isSepLine (headerLineTxt r)) = false
    rw [isSepLine_headerLineTxt r]
    obtain ⟨X, hX⟩ := headerLineTxt_cons r
    rw [hX]
    rfl
  · rw [show fmtDocx.header = matchTxtHeader from rfl, pyStrip_headerLineTxt r ht]
    exact matchTxtHeader_headerLine r ht

theorem stepDocx_body (acc : List NotesRecord) (hd : Nat × Str) (buf : List Str) (l : Str)
    (hl : lineOKDocx l = true) :
    stepP fmtDocx ⟨acc, some hd, buf⟩ l = ⟨acc, some hd, buf ++ [l]⟩ := by
  obtain ⟨h0, h1, h2, h3, h4, h5⟩ := lineOKDocx_parts l hl
  have hstrip : pyStrip l = l := by rw [pyStrip, h1, h2]
  have := stepP_body fmtDocx acc hd buf l
    (by rw [show fmtDocx.skip = (fun t => t.isEmpty || isSepLine t) from rfl, hstrip]
        simp [h0, h3])
    (by rw [show fmtDocx.header = matchTxtHeader from rfl, hstrip]; exact h4)
    (by rw [hstrip]; exact h5)
  rw [this]
  simp [fmtDocx, hstrip]

theorem foldDocx_body (ls : List Str) (hls : ∀ l ∈ ls, lineOKDocx l = true)
    (acc : List NotesRecord) (hd : Nat × Str) (buf : List Str) :
    List.foldl (stepP fmtDocx) ⟨acc, some hd, buf⟩ ls = ⟨acc, some hd, buf ++ ls⟩ := by
  induction ls generalizing buf with
  | nil => simp
  | cons l t ih =>
    rw [List.foldl_cons, stepDocx_body acc hd buf l (hls l (List.mem_cons_self l t)),
      ih (fun x hx => hls x (List.mem_cons_of_mem l hx))]
    simp

theorem docx_block_fold (r : NotesRecord) (h : safeDocx r = true) (st : PState) :
    List.foldl (stepP fmtDocx) st (docxBlockLines r)
      = ⟨st.acc ++ flushCur fmtDocx st, some (r.slide_number, r.slide_title),
          bodyLinesOf r.notes⟩ := by
  obtain ⟨ht, hsan, hn⟩ := safeDocx_parts r h
  obtain ⟨hns, hlines, hph⟩ := notesOKDocx_parts _ hn
  rw [docxBlockLines, List.foldl_append, List.foldl_append]
  rw [show List.foldl (stepP fmtDocx) st [headerLineDocx r, sepDash]
      = ⟨st.acc ++ flushCur fmtDocx st, some (r.slide_number, r.slide_title), []⟩ from by
    rw [List.foldl_cons, stepDocx_header st r ht hsan, List.foldl_cons, stepDocx_sepDash,
      List.foldl_nil]]
  rw [show List.foldl (stepP fmtDocx)
        ⟨st.acc ++ flushCur fmtDocx st, some (r.slide_number, r.slide_title), []⟩
        (if r.notes = [] then [phTxt] else docxBodyParas r.notes)
      = ⟨st.acc ++ flushCur fmtDocx st, some (r.slide_number, r.slide_title),
          bodyLinesOf r.notes⟩ from by
    by_cases hb : r.notes = []
    · rw [if_pos hb, List.foldl_cons, stepDocx_ph, List.foldl_nil, bodyLinesOf, if_pos hb]
    · have hall : ∀ l ∈ splitNL r.notes, lineOKDocx l = true := by
        rcases hlines with hbad | hok
        · exact absurd hbad hb
        · exact hok
      rw [if_neg hb, docxBodyParas_eq _ hns hall, foldDocx_body _ hall, bodyLinesOf,
        if_neg hb]
      rfl]
  rw [List.foldl_cons, stepDocx_blank, List.foldl_nil]

theorem flushCur_bodyLines (F : FmtP) (acc : List NotesRecord) (n : Nat) (t : Str)
    (notes : Str) (hph : ¬ (pyStrip notes = F.ph)) :
    flushCur F ⟨acc, some (n, t), bodyLinesOf notes⟩ = [⟨n, t, pyStrip notes⟩] := by
  by_cases h : notes = []
  · subst h
    show [NotesRecord.mk n t (collapsePh F (pyStrip (joinNL (bodyLinesOf ([] : Str)))))]
      = [NotesRecord.mk n t (pyStrip ([] : Str))]
    rw [show pyStrip (joinNL (bodyLinesOf ([] : Str))) = [] from rfl, collapsePh, ite_self]
    rfl
  · show [NotesRecord.mk n t (collapsePh F (pyStrip (joinNL (bodyLinesOf notes))))]
      = [NotesRecord.mk n t (pyStrip notes)]
    rw [bodyLinesOf, if_neg h, joinNL_splitNL, collapsePh, if_neg hph]

theorem runPF_docx (rs : List NotesRecord) (h : ∀ r ∈ rs, safeDocx r = true) (st : PState) :
    runPF fmtDocx st (rs.flatMap docxBlockLines)
      = st.acc ++ flushCur fmtDocx st ++ rs.map trimRec := by
  induction rs generalizing st with
  | nil => simp [runPF]
  | cons r rest ih =>
    have hr := h r (List.mem_cons_self r rest)
    rw [List.flatMap_cons, runPF, List.foldl_append, docx_block_fold r hr st]
    have hrec := ih (fun x hx => h x (List.mem_cons_of_mem r hx))
      ⟨st.acc ++ flushCur fmtDocx st, some (r.slide_number, r.slide_title),
        bodyLinesOf r.notes⟩
    rw [runPF] at hrec
    rw [hrec, flushCur_bodyLines fmtDocx _ _ _ _
      (notesOKDocx_parts _ (safeDocx_parts r hr).2.2).2.2]
    simp [trimRec]

theorem roundtrip_docx (rs : List NotesRecord) (h : ∀ r ∈ rs, safeDocx r = true) :
    parse_docx (export_to_docx rs) = rs.map trimRec := by
  rw [parse_docx, export_to_docx, runP, runPF_docx rs h]
  rfl

theorem foldl_append_flat (f : Nat × NotesRecord → List ChangeRecord)
    (ps : List (Nat × NotesRecord)) (acc : List ChangeRecord) :
    ps.foldl (fun a p => a ++ f p) acc = acc ++ ps.flatMap f := by
  induction ps generalizing acc with
  | nil => simp
  | cons p t ih => rw [List.foldl_cons, ih, List.flatMap_cons]; simp

theorem compare_eq_flatMap (original edited : List NotesRecord) :
    compare_notes original edited
      = (buildDict edited).flatMap (contribC (buildDict original)) := by
  rw [compare_notes, foldl_append_flat]
  rfl

theorem contribC_cases (d : List (Nat × NotesRecord)) (p : Nat × NotesRecord) :
    contribC d p = [] ∨ ∃ c, contribC d p = [c] ∧ c.slide_number = p.1 := by
  rw [contribC]
  cases dlookup d p.1 with
  | none =>
    by_cases h : p.2.notes = []
    · left; rw [if_pos h]
    · right
      refine ⟨⟨p.1, p.2.slide_title, [], p.2.notes, .added⟩, ?_, rfl⟩
      rw [if_neg h]
  | some o =>
    by_cases h : pyStrip o.notes = pyStrip p.2.notes
    · left; simp [h]
    · right
      refine ⟨⟨p.1, o.slide_title, pyStrip o.notes, pyStrip p.2.notes,
        classifyChange (pyStrip o.notes) (pyStrip p.2.notes)⟩, ?_, rfl⟩
      simp [h]

theorem contribC_num (d : List (Nat × NotesRecord)) (p : Nat × NotesRecord)
    (c : ChangeRecord) (hc : c ∈ contribC d p) : c.slide_number = p.1 := by
  rcases contribC_cases d p with h | ⟨c', h, hn⟩
  · rw [h] at hc; simp at hc
  · rw [h] at hc
    simp only [List.mem_singleton] at hc
    rw [hc]; exact hn

theorem dinsert_mem (d : List (Nat × NotesRecord)) (k : Nat) (v : NotesRecord)
    (q : Nat × NotesRecord) (hq : q ∈ dinsert d k v) : q ∈ d ∨ q = (k, v) := by
  induction d with
  | nil => simp [dinsert] at hq; right; exact hq
  | cons p t ih =>
    rw [dinsert] at hq
    by_cases h : p.1 = k
    · rw [if_pos h] at hq
      rcases List.mem_cons.mp hq with h1 | h1
      · right; rw [h1, h]
      · left; exact List.mem_cons_of_mem p h1
    · rw [if_neg h] at hq
      rcases List.mem_cons.mp hq with h1 | h1
      · left; rw [h1]; exact List.mem_cons_self p t
      · rcases ih h1 with h2 | h2
        · left; exact List.mem_cons_of_mem p h2
        · right; exact h2

theorem buildDict_key_from (l : List NotesRecord) :
    ∀ p ∈ buildDict l, ∃ r ∈ l, p.1 = r.slide_number := by
  have main : ∀ (l : List NotesRecord) (d : List (Nat × NotesRecord)),
      ∀ p ∈ l.foldl (fun d r => dinsert d r.slide_number r) d,
        p ∈ d ∨ ∃ r ∈ l, p.1 = r.slide_number := by
    intro l
    induction l with
    | nil => intro d p hp; left; simpa using hp
    | cons r t ih =>
      intro d p hp
      rw [List.foldl_cons] at hp
      rcases ih (dinsert d r.slide_number r) p hp with h1 | h1
      · rcases dinsert_mem d r.slide_number r p h1 with h2 | h2
        · left; exact h2
        · right; exact ⟨r, List.mem_cons_self r t, by rw [h2]⟩
      · obtain ⟨x, hx, he⟩ := h1
        right; exact ⟨x, List.mem_cons_of_mem r hx, he⟩
  intro p hp
  rcases main l [] p hp with h | h
  · simp at h
  · exact h

theorem dinsert_keys (d : List (Nat × NotesRecord)) (k : Nat) (v : NotesRecord) :
    (dinsert d k v).map Prod.fst
      = if k ∈ d.map Prod.fst then d.map Prod.fst else d.map Prod.fst ++ [k] := by
  induction d with
  | nil => simp [dinsert]
  | cons p t ih =>
    rw [dinsert]
    by_cases h : p.1 = k
    · rw [if_pos h]
      simp [h]
    · rw [if_neg h, List.map_cons, List.map_cons, ih]
      by_cases h2 : k ∈ t.map Prod.fst
      · rw [if_pos h2, if_pos (by simp [h2])]
      · rw [if_neg h2, if_neg (by
          simp only [List.map_cons, List.mem_cons]
          rintro (h3 | h3)
          · exact h (h3.symm)
          · exact h2 h3)]
        simp

theorem buildDict_keys_nodup (l : List NotesRecord) :
    ((buildDict l).map Prod.fst).Nodup := by
  have main : ∀ (l : List NotesRecord) (d : List (Nat × NotesRecord)),
      (d.map Prod.fst).Nodup →
      ((l.foldl (fun d r => dinsert d r.slide_number r) d).map Prod.fst).Nodup := by
    intro l
    induction l with
    | nil => intro d hd; simpa using hd
    | cons r t ih =>
      intro d hd
      rw [List.foldl_cons]
      refine ih _ ?_
      rw [dinsert_keys]
      by_cases h : r.slide_number ∈ d.map Prod.fst
      · rw [if_pos h]; exact hd
      · rw [if_neg h]
        simp [List.nodup_append, hd, h]
  exact main l [] (by simp)

theorem buildDict_keys_sublist (l : List NotesRecord) :
    List.Sublist ((buildDict l).map Prod.fst) (l.map (·.slide_number)) := by
  have main : ∀ (l : List NotesRecord) (d : List (Nat × NotesRecord)),
      List.Sublist ((l.foldl (fun d r => dinsert d r.slide_number r) d).map Prod.fst)
        (d.map Prod.fst ++ l.map (·.slide_number)) := by
    intro l
    induction l with
    | nil => intro d; simp
    | cons r t ih =>
      intro d
      rw [List.foldl_cons]
      refine (ih (dinsert d r.slide_number r)).trans ?_
      have h1 : List.Sublist ((dinsert d r.slide_number r).map Prod.fst)
          (d.map Prod.fst ++ [r.slide_number]) := by
        rw [dinsert_keys]
        by_cases h : r.slide_number ∈ d.map Prod.fst
        · rw [if_pos h]; exact List.sublist_append_left _ _
        · rw [if_neg h]
      have h2 := h1.append_right (t.map (·.slide_number))
      rw [List.append_assoc] at h2
      simpa using h2
  have := main l []
  simpa using this

theorem buildDict_key_inv (l : List NotesRecord) :
    ∀ p ∈ buildDict l, p.2.slide_number = p.1 := by
  have hins : ∀ (d : List (Nat × NotesRecord)) (k : Nat) (v : NotesRecord),
      (∀ p ∈ d, p.2.slide_number = p.1) → v.slide_number = k →
      ∀ p ∈ dinsert d k v, p.2.slide_number = p.1 := by
    intro d k v hd hv
    induction d with
    | nil => intro p hp; simp [dinsert] at hp; rw [hp]; exact hv
    | cons q t ih =>
      intro p hp
      rw [dinsert] at hp
      by_cases h : q.1 = k
      · rw [if_pos h] at hp
        rcases List.mem_cons.mp hp with h1 | h1
        · rw [h1]; simpa [h] using hv
        · exact hd p (List.mem_cons_of_mem q h1)
      · rw [if_neg h] at hp
        rcases List.mem_cons.mp hp with h1 | h1
        · rw [h1]; exact hd q (List.mem_cons_self q t)
        · exact ih (fun x hx => hd x (List.mem_cons_of_mem q hx)) p h1
  have main : ∀ (l : List NotesRecord) (d : List (Nat × NotesRecord)),
      (∀ p ∈ d, p.2.slide_number = p.1) →
      ∀ p ∈ l.foldl (fun d r => dinsert d r.slide_number r) d, p.2.slide_number = p.1 := by
    intro l
    induction l with
    | nil => intro d hd; simpa using hd
    | cons r t ih =>
      intro d hd
      rw [List.foldl_cons]
      exact ih _ (hins d r.slide_number r hd rfl)
  exact main l [] (by simp)

theorem dlookup_eq_none_iff (d : List (Nat × NotesRecord)) (k : Nat) :
    dlookup d k = none ↔ k ∉ d.map Prod.fst := by
  induction d with
  | nil => simp [dlookup]
  | cons p t ih =>
    rw [dlookup]
    by_cases h : p.1 = k
    · simp [h]
    · rw [if_neg h]
      simp only [List.map_cons, List.mem_cons, ih]
      constructor
      · rintro h1 (h2 | h2)
        · exact h h2.symm
        · exact h1 h2
      · intro h1 h2
        exact h1 (Or.inr h2)

theorem dlookup_buildDict_none (original : List NotesRecord) (k : Nat)
    (h : ∀ r ∈ original, r.slide_number ≠ k) :
    dlookup (buildDict original) k = none := by
  rw [dlookup_eq_none_iff]
  intro hk
  obtain ⟨p, hp, hfst⟩ := List.mem_map.mp hk
  obtain ⟨r, hr, he⟩ := buildDict_key_from original p hp
  exact h r hr (by rw [← he, hfst])

theorem dinsert_fresh (d : List (Nat × NotesRecord)) (k : Nat) (v : NotesRecord)
    (h : k ∉ d.map Prod.fst) : dinsert d k v = d ++ [(k, v)] := by
  induction d with
  | nil => rfl
  | cons p t ih =>
    rw [dinsert, if_neg (by
      intro he
      exact h (by simp [← he])), ih (fun hk => h (by simp [hk]))]
    rfl

theorem buildDict_of_nodup (l : List NotesRecord)
    (h : (l.map (·.slide_number)).Nodup) :
    buildDict l = l.map (fun r => (r.slide_number, r)) := by
  have main : ∀ (l : List NotesRecord) (d : List (Nat × NotesRecord)),
      (l.map (·.slide_number)).Nodup →
      (∀ r ∈ l, r.slide_number ∉ d.map Prod.fst) →
      l.foldl (fun d r => dinsert d r.slide_number r) d
        = d ++ l.map (fun r => (r.slide_number, r)) := by
    intro l
    induction l with
    | nil => intro d _ _; simp
    | cons r t ih =>
      intro d hnd hfresh
      rw [List.foldl_cons, dinsert_fresh d r.slide_number r
        (hfresh r (List.mem_cons_self r t))]
      rw [ih (d ++ [(r.slide_number, r)]) (by simpa using hnd.sublist (by simp)) ?_]
      · simp
      · intro x hx
        simp only [List.map_append, List.mem_append, List.map_cons, List.map_nil,
          List.mem_singleton, not_or]
        refine ⟨hfresh x (List.mem_cons_of_mem r hx), ?_⟩
        simp only [List.map_cons, List.nodup_cons] at hnd
        intro he
        exact hnd.1 (he ▸ List.mem_map_of_mem (·.slide_number) hx)
  have := main l [] h (by simp)
  simpa using this

theorem map_num_snd_of_inv (d : List (Nat × NotesRecord))
    (hinv : ∀ p ∈ d, p.2.slide_number = p.1) :
    (d.map Prod.snd).map (·.slide_number) = d.map Prod.fst := by
  induction d with
  | nil => rfl
  | cons p t ih =>
    rw [List.map_cons, List.map_cons, List.map_cons]
    congr 1
    · exact hinv p (List.mem_cons_self p t)
    · exact ih (fun q hq => hinv q (List.mem_cons_of_mem p hq))

theorem map_pair_snd_of_inv (d : List (Nat × NotesRecord))
    (hinv : ∀ p ∈ d, p.2.slide_number = p.1) :
    (d.map Prod.snd).map (fun r => (r.slide_number, r)) = d := by
  induction d with
  | nil => rfl
  | cons p t ih =>
    rw [List.map_cons, List.map_cons]
    congr 1
    · rw [hinv p (List.mem_cons_self p t)]
    · exact ih (fun q hq => hinv q (List.mem_cons_of_mem p hq))

theorem buildDict_dedup (l : List NotesRecord) :
    buildDict (dedupKeepLast l) = buildDict l := by
  have hnd : ((dedupKeepLast l).map (·.slide_number)).Nodup := by
    rw [dedupKeepLast, map_num_snd_of_inv _ (buildDict_key_inv l)]
    exact buildDict_keys_nodup l
  rw [buildDict_of_nodup _ hnd, dedupKeepLast,
    map_pair_snd_of_inv _ (buildDict_key_inv l)]

theorem compare_nums_sublist (original edited : List NotesRecord) :
    List.Sublist ((compare_notes original edited).map (·.slide_number))
      ((buildDict edited).map Prod.fst) := by
  rw [compare_eq_flatMap]
  induction buildDict edited with
  | nil => simp
  | cons p t ih =>
    rw [List.flatMap_cons, List.map_append, List.map_cons]
    rcases contribC_cases (buildDict original) p with h | ⟨c, h, hn⟩
    · rw [h]
      simp only [List.map_nil, List.nil_append]
      exact ih.cons p.1
    · rw [h]
      simp only [List.map_cons, List.map_nil, List.singleton_append, hn]
      exact ih.cons₂ p.1

theorem applyStep_eq (pres : Pres) (st : ApplyResult) (c : ChangeRecord) :
    applyStep pres st c
      = ⟨st.applied ++ (appliedOf pres c).toList, st.skipped,
          st.errors ++ (errorOf pres c).toList⟩ := by
  unfold applyStep appliedOf errorOf
  cases h : pres.getSlide c.slide_number with
  | error m => simp
  | ok s =>
    cases ht : trySetNotes s.shapes with
    | true => simp [ht]
    | false => simp [ht]

theorem foldl_apply (pres : Pres) (cs : List ChangeRecord) (st : ApplyResult) :
    cs.foldl (applyStep pres) st
      = ⟨st.applied ++ cs.filterMap (appliedOf pres), st.skipped,
          st.errors ++ cs.filterMap (errorOf pres)⟩ := by
  induction cs generalizing st with
  | nil => simp
  | cons c t ih =>
    rw [List.foldl_cons, applyStep_eq, ih]
    cases ha : appliedOf pres c <;> cases he : errorOf pres c <;>
      simp [List.filterMap_cons, ha, he]

theorem apply_notes_ok (pres : Pres) (changes : List ChangeRecord)
    (hs : pres.saveError = none) (hne : ¬ changes = []) :
    apply_notes pres changes none
      = .ok ⟨changes.filterMap (appliedOf pres), [], changes.filterMap (errorOf pres)⟩ := by
  rw [apply_notes]
  simp only
  rw [if_neg (by simpa [List.isEmpty_iff] using hne), foldl_apply, hs]
  simp

theorem apply_notes_save (pres : Pres) (changes : List ChangeRecord)
    (allowed : Option (List Nat)) (msg : Str) (hsv : pres.saveError = some msg)
    (hne : ¬ ((match allowed with
      | some a => changes.filter (fun (c : ChangeRecord) => a.contains c.slide_number)
      | none => changes) = [])) :
    apply_notes pres changes allowed
      = .error (("Failed to apply notes: ".data) ++ msg) := by
  cases allowed with
  | none =>
    rw [apply_notes]
    simp only
    rw [if_neg (by simpa [List.isEmpty_iff] using hne), hsv]
  | some a =>
    rw [apply_notes]
    simp only
    rw [if_neg (by simpa [List.isEmpty_iff] using hne), hsv]

theorem apply_skipped_nil (pres : Pres) (changes : List ChangeRecord)
    (allowed : Option (List Nat)) (r : ApplyResult)
    (h : apply_notes pres changes allowed = .ok r) : r.skipped = [] := by
  cases allowed with
  | none =>
    rw [apply_notes] at h
    simp only at h
    split at h
    · simp only [Except.ok.injEq] at h
      rw [← h]
    · split at h
      · simp at h
      · simp only [Except.ok.injEq] at h
        rw [← h, foldl_apply]
  | some a =>
    rw [apply_notes] at h
    simp only at h
    split at h
    · simp only [Except.ok.injEq] at h
      rw [← h]
    · split at h
      · simp at h
      · simp only [Except.ok.injEq] at h
        rw [← h, foldl_apply]

theorem delete_codes_eq :
    delete_codes = [0, 1, 2, 3, 4, 5, 6, 7, 8, 11, 12, 14, 15, 16, 17, 18, 19, 20,
      21, 22, 23, 24, 25, 26, 27, 28, 29, 30, 31, 127] := by decide

theorem mem_delete_chars_iff (c : Char) :
    c ∈ delete_chars ↔ keptBySpec c = false := by
  have hval : ∀ k ∈ delete_codes, (Char.ofNat k).toNat = k := by decide
  have hnat : ∀ n : Nat, n ∈ delete_codes
      ↔ ((n < 32 ∧ ¬ (n = 9 ∨ n = 10 ∨ n = 13)) ∨ n = 127) := by
    intro n
    rw [delete_codes_eq]
    simp only [List.mem_cons, List.not_mem_nil, or_false]
    omega
  have hkept : keptBySpec c = false
      ↔ ((c.toNat < 32 ∧ ¬ (c.toNat = 9 ∨ c.toNat = 10 ∨ c.toNat = 13))
          ∨ c.toNat = 127) := by
    simp only [keptBySpec]
    rw [Bool.not_eq_false']
    simp only [Bool.or_eq_true, Bool.and_eq_true, decide_eq_true_eq, Bool.not_eq_true',
      Bool.or_eq_false_iff, beq_eq_false_iff_ne, ne_eq, beq_iff_eq]
    omega
  have hmemiff : c ∈ delete_chars ↔ c.toNat ∈ delete_codes := by
    constructor
    · intro hm
      obtain ⟨k, hk, he⟩ := List.mem_map.mp hm
      rw [← he, hval k hk]
      exact hk
    · intro hm
      have := List.mem_map_of_mem Char.ofNat hm
      rwa [Char.ofNat_toNat] at this
  rw [hmemiff, hnat c.toNat, hkept]

/-- C1: the round-trip claim as frozen is false; this is the amended form.
For each of the three formats, parsing the serialized file recovers exactly the
records with notes bodies trimmed, provided every record is format-safe:
its title has no newline and no leading or trailing whitespace (and, for the
rich-document format, survives sanitize unchanged), and no line of its notes
body carries trailing whitespace, strips to the format's placeholder, to a
separator or horizontal-rule or document-title line, or matches the format's
slide-header grammar (for the rich-document format every body line must
additionally be non-blank, strip-invariant and sanitize-invariant).  Without
these conditions the round trip fails, as `C1_counterexample` shows. -/
theorem C1_round_trip_amended (rs : List NotesRecord) :
    ((∀ r ∈ rs, safeTxt r = true) → parse_txt (export_to_txt rs) = rs.map trimRec) ∧
    ((∀ r ∈ rs, safeMd r = true) → parse_md (export_to_md rs) = rs.map trimRec) ∧
    ((∀ r ∈ rs, safeDocx r = true) → parse_docx (export_to_docx rs) = rs.map trimRec) :=
  ⟨roundtrip_txt rs, roundtrip_md rs, roundtrip_docx rs⟩

/-- Witness for C1 at a concrete two-record snapshot. -/
theorem C1_round_trip_witness :
    parse_txt (export_to_txt wRecs) = wRecs.map trimRec ∧
    parse_md (export_to_md wRecs) = wRecs.map trimRec ∧
    parse_docx (export_to_docx wRecs) = wRecs.map trimRec :=
  ⟨(C1_round_trip_amended wRecs).1 (by decide),
   (C1_round_trip_amended wRecs).2.1 (by decide),
   (C1_round_trip_amended wRecs).2.2 (by decide)⟩

/-- C1 counterexample: a plain-text notes body containing no placeholder text,
here the single line `Slide 2`, is re-parsed as a slide header, so the txt
round trip returns two records instead of the original one. -/
theorem C1_counterexample :
    parse_txt (export_to_txt [⟨1, [], "Slide 2".data⟩])
      = [⟨1, [], []⟩, ⟨2, [], []⟩] ∧
    ([⟨1, [], []⟩, ⟨2, [], []⟩] : List NotesRecord)
      ≠ ([⟨1, [], "Slide 2".data⟩] : List NotesRecord).map trimRec := by
  decide

/-- C2: the claim is false for the lightweight-markup serializer; amended form.
For a record with empty notes the tabular-text serializer writes the literal
plain line `[No notes]`, but the lightweight-markup serializer writes the
emphasis-wrapped line `*[No notes]*`, and the rich-document serializer writes a
`[No notes]` paragraph (rendered italic). -/
theorem C2_placeholder_amended (r : NotesRecord) (h : r.notes = []) :
    txtRawBlock r = [headerLineTxt r, sepDash, [], phTxt, [], sepEq, []] ∧
    mdRawBlock r = [headerLineMd r, [], phMd, [], hrMd, []] ∧
    docxBlockLines r = [headerLineDocx r, sepDash, phTxt, []] ∧
    phTxt = "[No notes]".data ∧ phMd = "*[No notes]*".data ∧ phMd ≠ phTxt := by
  refine ⟨?_, ?_, ?_, rfl, rfl, by decide⟩
  · rw [txtRawBlock, if_pos h]
  · rw [mdRawBlock, if_pos h]
  · rw [docxBlockLines, if_pos h]
    rfl

/-- Witness for C2 at a concrete empty-notes record. -/
theorem C2_placeholder_witness :
    txtRawBlock ⟨1, [], []⟩
      = [headerLineTxt ⟨1, [], []⟩, sepDash, [], phTxt, [], sepEq, []] ∧
    mdRawBlock ⟨1, [], []⟩ = [headerLineMd ⟨1, [], []⟩, [], phMd, [], hrMd, []] ∧
    docxBlockLines ⟨1, [], []⟩ = [headerLineDocx ⟨1, [], []⟩, sepDash, phTxt, []] ∧
    phTxt = "[No notes]".data ∧ phMd = "*[No notes]*".data ∧ phMd ≠ phTxt :=
  C2_placeholder_amended ⟨1, [], []⟩ rfl

/-- C2 counterexample: the md serializer writes `*[No notes]*`, not the plain
literal `[No notes]`, as the body of an empty-notes slide. -/
theorem C2_counterexample :
    mdRawBlock ⟨1, [], []⟩
      = [headerLineMd ⟨1, [], []⟩, [], "*[No notes]*".data, [], hrMd, []] ∧
    ("*[No notes]*".data : Str) ≠ "[No notes]".data := by
  decide

/-- C3: the claim is false because the code tests raw truthiness, not the
trimmed text; amended form.  For snapshots (unique slide numbers in the edited
input) and an edited record with no counterpart in the original: an `added`
ChangeRecord carrying the raw, untrimmed notes is emitted exactly when
`notes_text` is non-empty as a raw string; only an exactly empty string
produces no ChangeRecord, and whitespace-only notes do produce one
(see `C3_counterexample`). -/
theorem C3_added_amended (original edited : List NotesRecord)
    (hnd : (edited.map (·.slide_number)).Nodup) (ed : NotesRecord) (hed : ed ∈ edited)
    (horig : ∀ r ∈ original, r.slide_number ≠ ed.slide_number) :
    (¬ ed.notes = [] →
      (⟨ed.slide_number, ed.slide_title, [], ed.notes, .added⟩ : ChangeRecord)
        ∈ compare_notes original edited) ∧
    (ed.notes = [] →
      ∀ c ∈ compare_notes original edited, c.slide_number ≠ ed.slide_number) := by
  have hbd : buildDict edited = edited.map (fun r => (r.slide_number, r)) :=
    buildDict_of_nodup edited hnd
  have hcmp : compare_notes original edited
      = edited.flatMap (fun r => contribC (buildDict original) (r.slide_number, r)) := by
    rw [compare_eq_flatMap, hbd, List.flatMap_map]
  have hlook : dlookup (buildDict original) ed.slide_number = none :=
    dlookup_buildDict_none original ed.slide_number horig
  constructor
  · intro hne
    rw [hcmp]
    refine List.mem_flatMap.mpr ⟨ed, hed, ?_⟩
    rw [show contribC (buildDict original) (ed.slide_number, ed)
        = if ed.notes = [] then []
          else [⟨ed.slide_number, ed.slide_title, [], ed.notes, .added⟩] from by
      rw [contribC]
      simp only [hlook]]
    rw [if_neg hne]
    exact List.mem_singleton.mpr rfl
  · intro hz c hc heq
    rw [hcmp] at hc
    obtain ⟨a, ha, hca⟩ := List.mem_flatMap.mp hc
    have hnum : c.slide_number = a.slide_number := contribC_num _ _ _ hca
    have haed : a = ed := List.inj_on_of_nodup_map hnd ha hed (by rw [← hnum, heq])
    subst haed
    rw [show contribC (buildDict original) (a.slide_number, a)
        = if a.notes = [] then []
          else [⟨a.slide_number, a.slide_title, [], a.notes, .added⟩] from by
      rw [contribC]
      simp only [hlook]] at hca
    rw [if_pos hz] at hca
    simp at hca

/-- Witness for C3 at a concrete pair: whitespace-only notes with no original
counterpart yield the added change carrying the raw body. -/
theorem C3_added_witness :
    (⟨1, [], [], " ".data, .added⟩ : ChangeRecord)
      ∈ compare_notes [⟨2, [], "a".data⟩] [⟨1, [], " ".data⟩] :=
  (C3_added_amended [⟨2, [], "a".data⟩] [⟨1, [], " ".data⟩] (by decide)
    ⟨1, [], " ".data⟩ (by decide) (by decide)).1 (by decide)

/-- C3 counterexample: an edited record with whitespace-only notes and no
original counterpart does produce an added ChangeRecord, though its trimmed
notes text is empty — the claim says it must produce none. -/
theorem C3_counterexample :
    pyStrip (" ".data) = [] ∧
    compare_notes [] [⟨1, [], " ".data⟩]
      = [⟨1, [], [], " ".data, .added⟩] := by
  decide

/-- C4: the ascending-order claim is false; amended form.  The ChangeRecord
list follows the first-occurrence order of slide numbers in the edited input
(its slide numbers are a subsequence of the edited dict's key order); in
particular, when the edited records are already in ascending slide_number
order, so is the output. -/
theorem C4_order_amended (original edited : List NotesRecord) :
    List.Sublist ((compare_notes original edited).map (·.slide_number))
      ((buildDict edited).map Prod.fst) ∧
    (List.Pairwise (· ≤ ·) (edited.map (·.slide_number)) →
      List.Pairwise (· ≤ ·) ((compare_notes original edited).map (·.slide_number))) := by
  refine ⟨compare_nums_sublist original edited, fun hp => ?_⟩
  exact List.Pairwise.sublist
    ((compare_nums_sublist original edited).trans (buildDict_keys_sublist edited)) hp

/-- Witness for C4 at a concrete sorted edited input. -/
theorem C4_order_witness :
    List.Pairwise (· ≤ ·)
      ((compare_notes [] [⟨1, [], "a".data⟩, ⟨3, [], "b".data⟩]).map (·.slide_number)) :=
  (C4_order_amended [] [⟨1, [], "a".data⟩, ⟨3, [], "b".data⟩]).2 (by decide)

/-- C4 counterexample: with the edited records in the order 3, 1 the change
list comes out in the order 3, 1 — not ascending as the claim requires. -/
theorem C4_counterexample :
    (compare_notes [] [⟨3, [], "x".data⟩, ⟨1, [], "y".data⟩]).map (·.slide_number)
      = [3, 1] ∧ ¬ List.Pairwise (· ≤ ·) ([3, 1] : List Nat) := by
  decide

/-- C5: confirmed.  A slide number present only in the original snapshot is
never reported: every emitted ChangeRecord carries a slide number occurring in
the edited input. -/
theorem C5_absent_untouched (original edited : List NotesRecord) (k : Nat)
    (h : ∀ r ∈ edited, r.slide_number ≠ k) :
    ∀ c ∈ compare_notes original edited, c.slide_number ≠ k := by
  intro c hc
  rw [compare_eq_flatMap] at hc
  obtain ⟨p, hp, hcp⟩ := List.mem_flatMap.mp hc
  obtain ⟨r, hr, he⟩ := buildDict_key_from edited p hp
  rw [contribC_num _ _ _ hcp, he]
  exact h r hr

/-- Witness for C5: original has slides 1 and 2 with content, edited mentions
only slide 1; the single emitted change does not concern slide 2. -/
theorem C5_absent_witness :
    (⟨1, [], "a".data, "b".data, .modified⟩ : ChangeRecord).slide_number ≠ 2 :=
  C5_absent_untouched [⟨1, [], "a".data⟩, ⟨2, [], "keep".data⟩] [⟨1, [], "b".data⟩] 2
    (by decide) ⟨1, [], "a".data, "b".data, .modified⟩ (by decide)

/-- C6: the claim is false — the skipped list is never populated; amended form.
Whenever `apply_notes` returns a result (rather than propagating a save
failure), its `skipped` list is the empty list: changes filtered out by
`allowed_slides` are dropped without record, and a slide that cannot be looked
up is reported in `errors` instead. -/
theorem C6_skipped_amended (pres : Pres) (changes : List ChangeRecord)
    (allowed : Option (List Nat)) (r : ApplyResult)
    (h : apply_notes pres changes allowed = .ok r) : r.skipped = [] :=
  apply_skipped_nil pres changes allowed r h

/-- Witness for C6 at a concrete filtered apply call. -/
theorem C6_skipped_witness : (⟨[2], [], []⟩ : ApplyResult).skipped = [] :=
  C6_skipped_amended presOK [mkChange 1, mkChange 2] (some [2]) ⟨[2], [], []⟩ rfl

/-- C6 counterexample: the change for slide 1 is filtered out by
`allowed_slides = [2]`, yet the outcome's skipped list is `[]`, not `[1]` as
the claim requires. -/
theorem C6_counterexample :
    apply_notes presOK [mkChange 1, mkChange 2] (some [2]) = .ok ⟨[2], [], []⟩ ∧
    (([2] : List Nat).contains 1 = false) :=
  ⟨rfl, rfl⟩

/-- C7: partially false — a failure of the text assignment itself is swallowed
by the shape loop's bare `except: continue`; amended form.  A failure raised
while locating a slide or its notes page appends the formatted
`Slide N: message` entry to `errors` and the loop continues: on a successful
save the outcome lists exactly the per-change lookup successes in `applied` and
the per-change lookup failures in `errors`, change by change.  A failure of the
single batched save is propagated as a raised error carrying no outcome at
all. -/
theorem C7_errors_amended (pres : Pres) (changes : List ChangeRecord) :
    (pres.saveError = none → ¬ changes = [] →
      apply_notes pres changes none
        = .ok ⟨changes.filterMap (appliedOf pres), [],
            changes.filterMap (errorOf pres)⟩) ∧
    (∀ msg : Str, pres.saveError = some msg → ¬ changes = [] →
      apply_notes pres changes none
        = .error (("Failed to apply notes: ".data) ++ msg)) := by
  refine ⟨apply_notes_ok pres changes,
    fun msg hsv hne => apply_notes_save pres changes none msg hsv ?_⟩
  simpa using hne

/-- Witness for C7: a slide-1 lookup failure is recorded and slide 2 is still
applied; a save failure is propagated as an error. -/
theorem C7_errors_witness :
    apply_notes presLookupFail [mkChange 1, mkChange 2] none
      = .ok ⟨[2], [], ["Slide 1: boom".data]⟩ ∧
    apply_notes presSaveFail [mkChange 2] none
      = .error ("Failed to apply notes: disk full".data) := by
  constructor
  · rw [(C7_errors_amended presLookupFail [mkChange 1, mkChange 2]).1 rfl (by decide)]
    rfl
  · rw [(C7_errors_amended presSaveFail [mkChange 2]).2 ("disk full".data) rfl (by decide)]
    rfl

/-- C7 counterexample: on a slide whose notes placeholder raises during the
text assignment, the change is silently dropped — the outcome records neither
an applied slide nor an errors entry, refuting the claim that any
collaborator-reported set-notes failure is appended to `errors`. -/
theorem C7_counterexample :
    apply_notes presSetFail [mkChange 1] none = .ok ⟨[], [], []⟩ := rfl

/-- C8: confirmed.  `sanitize_text` keeps exactly the characters outside the
control ranges 0x00-0x08, 0x0B-0x0C, 0x0E-0x1F and distinct from the delete
character 0x7F, unchanged and in order: it equals a filter by the spec-side
keep predicate. -/
theorem C8_sanitize_spec (s : Str) : sanitize_text s = s.filter keptBySpec := by
  rw [sanitize_text]
  apply List.filter_congr
  intro c _
  by_cases hm : c ∈ delete_chars
  · rw [show delete_chars.contains c = List.elem c delete_chars from rfl,
      List.elem_eq_true_of_mem hm, (mem_delete_chars_iff c).mp hm]
    rfl
  · have h1 : List.elem c delete_chars = false := by
      rw [List.elem_eq_mem]
      exact decide_eq_false hm
    have h2 : keptBySpec c = true := by
      cases hk : keptBySpec c
      · exact absurd ((mem_delete_chars_iff c).mpr hk) hm
      · rfl
    rw [show delete_chars.contains c = List.elem c delete_chars from rfl, h1, h2]
    rfl

/-- C9: confirmed.  `sanitize_text` is idempotent. -/
theorem C9_sanitize_idem (s : Str) :
    sanitize_text (sanitize_text s) = sanitize_text s := by
  rw [sanitize_text, sanitize_text, List.filter_filter]
  simp only [Bool.and_self]

/-- C10: confirmed.  `compare_notes` emits at most one ChangeRecord per
distinct slide number, and replacing either input by its last-occurrence-wins
deduplication (in first-occurrence order, as the dict construction does) leaves
the result unchanged: earlier duplicates are ignored. -/
theorem C10_last_wins (original edited : List NotesRecord) :
    ((compare_notes original edited).map (·.slide_number)).Nodup ∧
    compare_notes original edited
      = compare_notes (dedupKeepLast original) (dedupKeepLast edited) := by
  constructor
  · exact List.Nodup.sublist (compare_nums_sublist original edited)
      (buildDict_keys_nodup edited)
  · rw [compare_eq_flatMap, compare_eq_flatMap, buildDict_dedup, buildDict_dedup]

end Vox
